import Mathlib

/-!
# Verification of the DS-APP dashboard front end

A shallow embedding, in Lean 4, of the client-side logic of the DS-APP
project-monitoring dashboard (`script.js`, here `src/unnamed/part_001`) and of
the MRF items-log page (`src/static/mrf_items_log.js` and
`src/static/mrf_items_log.html`).

Modelling conventions:
* JavaScript numbers are modelled as exact rationals (`ℚ`); no claim treated
  here depends on binary floating-point rounding.
* JavaScript strings are Lean `String`s; the relational string comparison
  (`<` on strings, which JS performs code-unit-wise) is modelled as
  lexicographic comparison of the character (code point) sequences, which
  agrees with UTF-16 code-unit order on all strings made of basic-plane
  characters.
* DOM-mutating and network-calling procedures are modelled either as pure
  functions of their data inputs, as event traces (lists of observable UI or
  network events in program order), or as transition functions on an explicit
  state record, as appropriate.
-/

namespace DSApp

/-! ## JavaScript values -/

/-- A JavaScript value as it appears in the project/MRF row objects handled by
the front end: `null` also stands for `undefined`; numbers are exact
rationals; everything else the code touches is a string. -/
inductive JsVal where
  | null : JsVal
  | num (q : ℚ) : JsVal
  | str (s : String) : JsVal
deriving DecidableEq

/-- JavaScript falsiness of a `JsVal` (`!v` / `v || d` coercion): `null`,
`undefined`, `0` and `""` are falsy. -/
def JsVal.falsy : JsVal → Bool
  | .null => true
  | .num q => q == 0
  | .str s => s == ""

/-! ## String helpers

`String.trim`, `String.toLowerCase` and number rendering are re-modelled over
character lists so that every definition is structurally recursive and
kernel-computable. -/

/-- JavaScript whitespace as used by `String.prototype.trim` and numeric
coercions: space, tab, LF, VT, FF, CR, NBSP, BOM. -/
def isJsWs (c : Char) : Bool :=
  c.val = 32 || c.val = 9 || c.val = 10 || c.val = 11 || c.val = 12 ||
  c.val = 13 || c.val = 160 || c.val = 65279

/-- `trim` on a character list: drop leading and trailing whitespace. -/
def listTrim (cs : List Char) : List Char :=
  ((cs.dropWhile isJsWs).reverse.dropWhile isJsWs).reverse

/-- Model of `String.prototype.trim`. -/
def strTrim (s : String) : String := ⟨listTrim s.data⟩

/-- Model of `String.prototype.toLowerCase` (ASCII range; the full Unicode
mapping is host-level and irrelevant to the data handled here). -/
def strLower (s : String) : String := ⟨s.data.map Char.toLower⟩

/-- The numeric value of a digit character (`'0'` ↦ 0, …). -/
def digitVal (c : Char) : Nat := c.toNat - 48

/-- `digitsToNat ds` is the base-10 number denoted by the digit characters
`ds`; this models `parseInt(group, 10)` on the all-digit regex groups matched
by `parseDate`. -/
def digitsToNat (ds : List Char) : Nat :=
  ds.foldl (fun a c => 10 * a + digitVal c) 0

/-- The digit character for `k % 10` (used to build concrete date strings in
the statements below). -/
def dch (k : Nat) : Char := Char.ofNat (48 + k % 10)

/-- Left-pad a string with `'0'` to length `n`:
model of `String(x).padStart(n, '0')`. -/
def padZero (n : Nat) (s : String) : String :=
  ⟨List.replicate (n - s.length) '0' ++ s.data⟩

/-! ## `parseFloat`

`parseFloat` (ES § 19.2.4) parses the longest prefix of the string that is a
decimal literal and returns `NaN` when there is none.  `none` models `NaN`;
the literals `Infinity`/`-Infinity`, which denote values outside `ℚ`, are
modelled as parse failures (no claim below touches them). -/

/-- Split a character list into its leading digits and the rest. -/
def spanDigits (cs : List Char) : List Char × List Char :=
  (cs.takeWhile Char.isDigit, cs.dropWhile Char.isDigit)

/-- The optional exponent part `e[+-]?digits` at the end of a numeric literal;
a malformed exponent is ignored, as `parseFloat` stops before it. -/
def expPart (cs : List Char) : Int :=
  match cs with
  | 'e' :: rest | 'E' :: rest =>
    let (sgn, r2) : Int × List Char :=
      match rest with
      | '-' :: r => (-1, r)
      | '+' :: r => (1, r)
      | r => (1, r)
    let ed := r2.takeWhile Char.isDigit
    if ed.isEmpty then 0 else sgn * (digitsToNat ed : Int)
  | _ => 0

/-- Model of `parseFloat(s)`: skip leading whitespace, optional sign, integer
digits, optional fraction digits, optional exponent; `none` for `NaN`. -/
def parseFloatQ (s : String) : Option ℚ :=
  let cs := s.data.dropWhile isJsWs
  let (sgn, cs) : ℚ × List Char :=
    match cs with
    | '-' :: r => (-1, r)
    | '+' :: r => (1, r)
    | r => (1, r)
  let (ip, cs) := spanDigits cs
  let (fp, cs) : List Char × List Char :=
    match cs with
    | '.' :: r => spanDigits r
    | r => ([], r)
  if ip.isEmpty ∧ fp.isEmpty then none
  else
    let mant : ℚ := (digitsToNat ip : ℚ) + (digitsToNat fp : ℚ) / (10 : ℚ) ^ fp.length
    some (sgn * mant * (10 : ℚ) ^ expPart cs)

/-- Rendering of a JS number to a string (`String(q)`).  Integers render
exactly; terminating decimal fractions render with their shortest decimal
expansion, matching the JS shortest-round-trip printing on such values.  A
rational with no terminating decimal expansion cannot arise exactly from a JS
double; such values get an inert marker rendering. -/
def jsNumToString (q : ℚ) : String :=
  if q.den = 1 then toString q.num
  else
    match (List.range 15).find? (fun k => (q * (10 : ℚ) ^ (k + 1)).den = 1) with
    | some k =>
      let a := (q * (10 : ℚ) ^ (k + 1)).num.natAbs
      let p : Nat := 10 ^ (k + 1)
      (if q < 0 then "-" else "") ++ toString (a / p) ++ "." ++
        padZero (k + 1) (toString (a % p))
    | none => toString q.num ++ "/" ++ toString q.den

/-- `String(v)` for the values the comparators coerce (nulls are coalesced
before this conversion everywhere it is used, so `.null` keeps JS's
`"null"`). -/
def jsToString : JsVal → String
  | .null => "null"
  | .num q => jsNumToString q
  | .str s => s

/-! ## `safeFloat`

```js
function safeFloat(value, fallback = NaN) {
    if (value === null || value === undefined) return fallback;
    const strValue = String(value).replace(/[$,₱%]/g, '').replace(/,/g, '').trim();
    if (strValue === '') return fallback;
    const num = parseFloat(strValue);
    return isNaN(num) ? fallback : num;
}
```
`none` models a `NaN` fallback.  For a number argument, `String(value)`
followed by the strip (which touches no character a JS number rendering
contains) and `parseFloat` is the identity on JS numbers, and is modelled as
such. -/

/-- Strip currency/percent symbols and comma separators:
`.replace(/[$,₱%]/g, '').replace(/,/g, '')`. -/
def stripCurrency (s : String) : String :=
  ⟨s.data.filter (fun c => !(c = '$' || c = ',' || c = '₱' || c = '%'))⟩

/-- Model of `safeFloat(value, fallback)` with `fallback = NaN ↦ none`. -/
def safeFloat (v : JsVal) (fallback : Option ℚ) : Option ℚ :=
  match v with
  | .null => fallback
  | .num q => some q
  | .str s =>
    let strValue := strTrim (stripCurrency s)
    if strValue = "" then fallback
    else
      match parseFloatQ strValue with
      | none => fallback
      | some q => some q

/-- `safeFloat` with a numeric fallback (`safeFloat(v, 0)` etc.). -/
def safeFloatD (v : JsVal) (fb : ℚ) : ℚ :=
  (safeFloat v (some fb)).getD fb

/-! ## Dates

`parseDate` (script.js lines 176–228) parses ISO `YYYY-MM-DD` prefixes, then
US `M/D/YYYY` prefixes, then falls back to `new Date(strInput)`.  A parsed
date is a UTC calendar date, modelled by its components. -/

/-- The UTC calendar date `(getUTCFullYear, getUTCMonth()+1, getUTCDate)` of a
`Date` produced by `parseDate` (always midnight UTC). -/
structure UTCDate where
  year : Int
  month : Nat
  day : Nat
deriving DecidableEq

/-- Gregorian leap-year test. -/
def isLeapYear (y : Int) : Bool :=
  (y % 4 == 0 && y % 100 != 0) || y % 400 == 0

/-- Days in month `m` (1–12) of year `y`. -/
def daysInMonth (y : Int) (m : Nat) : Nat :=
  if m = 2 then (if isLeapYear y then 29 else 28)
  else if m = 4 ∨ m = 6 ∨ m = 9 ∨ m = 11 then 30
  else 31

/-- `Date.UTC`'s legacy year mapping (ES § 21.4.3.4): integer years 0–99 are
read as 1900–1999. -/
def utcYearAdjust (y : Int) : Int :=
  if 0 ≤ y ∧ y ≤ 99 then 1900 + y else y

/-- The calendar date reached by `new Date(Date.UTC(y, m - 1, d))` followed by
the `getUTC*` component reads, for `1 ≤ m ≤ 12` and `1 ≤ d ≤ 31` (the only
arguments `parseDate` passes after its range check): out-of-month days
overflow into the following month. -/
def dateUTCNorm (y : Int) (m d : Nat) : UTCDate :=
  let yy := utcYearAdjust y
  let dim := daysInMonth yy m
  if d ≤ dim then ⟨yy, m, d⟩
  else if m = 12 then ⟨yy + 1, 1, d - dim⟩
  else ⟨yy, m + 1, d - dim⟩

/-- The range check plus build-and-verify step shared by `parseDate`'s ISO and
US branches: sanity-check `1 ≤ month ≤ 12`, `1 ≤ day ≤ 31`, construct the UTC
date, and accept it only if its components round-trip (which rejects
overflowed dates such as Feb 30). -/
def checkedUTC (y : Int) (m d : Nat) : Option UTCDate :=
  if 1 ≤ m ∧ m ≤ 12 ∧ 1 ≤ d ∧ d ≤ 31 then
    let dt := dateUTCNorm y m d
    if dt = ⟨y, m, d⟩ then some dt else none
  else none

/-- Match of the regex `^(\d{4})-(\d{2})-(\d{2})` (a prefix match: trailing
characters are ignored), returning the three `parseInt`-ed groups. -/
def matchIso : List Char → Option (Nat × Nat × Nat)
  | c0 :: c1 :: c2 :: c3 :: c4 :: c5 :: c6 :: c7 :: c8 :: c9 :: _ =>
    if c4 = '-' ∧ c7 = '-' ∧ ([c0, c1, c2, c3, c5, c6, c8, c9].all Char.isDigit : Bool) then
      some (digitsToNat [c0, c1, c2, c3], digitsToNat [c5, c6], digitsToNat [c8, c9])
    else none
  | _ => none

/-- One regex step `(\d{1,2})\/`: one or two digits followed by a slash
(backtracking from two digits to one), returning the number and the
remainder. -/
def matchNum12Slash : List Char → Option (Nat × List Char)
  | a :: b :: rest =>
    if a.isDigit && b.isDigit then
      match rest with
      | c :: rest2 => if c = '/' then some (digitsToNat [a, b], rest2) else none
      | [] => none
    else if a.isDigit && (b = '/' : Bool) then some (digitsToNat [a], rest)
    else none
  | _ => none

/-- Four leading digits (the year group of the US-format regex). -/
def matchYear4 : List Char → Option Nat
  | a :: b :: c :: d :: _ =>
    if [a, b, c, d].all Char.isDigit then some (digitsToNat [a, b, c, d])
    else none
  | _ => none

/-- Match of the regex `^(\d{1,2})\/(\d{1,2})\/(\d{4})` (month, day, year). -/
def matchSlashDate (cs : List Char) : Option (Nat × Nat × Nat) := do
  let (m, r1) ← matchNum12Slash cs
  let (d, r2) ← matchNum12Slash r1
  let y ← matchYear4 r2
  pure (m, d, y)

/-- Model of the `new Date(strInput)` fallback (script.js lines 216–220).
A string conforming to the ES Date Time String Format's date-only
`YYYY-MM-DD` production (ES § 21.4.3.2) — the whole string, with in-bounds
month and day — parses to midnight UTC of that date; the code then reads the
local `getFullYear/getMonth/getDate` components (a UTC host clock is assumed;
an offset clock could shift the day, never the century) and rebuilds the date
with `Date.UTC`, whose legacy rule maps years 0–99 to 1900–1999 and which
rolls over out-of-month days — exactly `dateUTCNorm`.  A `YYYY-MM-DD` string
with out-of-bounds components is not a valid format instance and the major
engines produce an Invalid Date, modelled as `none`.  Every other string
parses by host-specific heuristics and is modelled as parse failure; no
theorem below evaluates the model on such inputs. -/
def jsDateHeuristic (cs : List Char) : Option UTCDate :=
  match cs with
  | [c0, c1, c2, c3, c4, c5, c6, c7, c8, c9] =>
    if c4 = '-' ∧ c7 = '-' ∧ ([c0, c1, c2, c3, c5, c6, c8, c9].all Char.isDigit : Bool) then
      let y := digitsToNat [c0, c1, c2, c3]
      let m := digitsToNat [c5, c6]
      let d := digitsToNat [c8, c9]
      if 1 ≤ m ∧ m ≤ 12 ∧ 1 ≤ d ∧ d ≤ daysInMonth (Int.ofNat y) m then
        some (dateUTCNorm (Int.ofNat y) m d)
      else none
    else none
  | _ => none

/-- The body of `parseDate` after the falsy check and `trim`: ISO branch, then
US branch, then the `Date`-constructor fallback. -/
def parseDateChars (cs : List Char) : Option UTCDate :=
  let afterIso : Option UTCDate :=
    match matchSlashDate cs with
    | some (m, d, y) =>
      match checkedUTC (Int.ofNat y) m d with
      | some dt => some dt
      | none => jsDateHeuristic cs
    | none => jsDateHeuristic cs
  match matchIso cs with
  | some (y, m, d) =>
    match checkedUTC (Int.ofNat y) m d with
    | some dt => some dt
    | none => afterIso
  | none => afterIso

/-- Model of `parseDate(dateStr)` on a string argument (the `instanceof Date`
branch does not apply to row data, which holds only JSON values). -/
def parseDate (s : String) : Option UTCDate :=
  if s = "" then none
  else
    let strInput := strTrim s
    if strInput = "" then none else parseDateChars strInput.data

/-- `parseDate` applied to a row value: `if (!dateStr) return null` rejects
every falsy value, then the value is coerced with `String(...)`. -/
def parseDateVal (v : JsVal) : Option UTCDate :=
  if v.falsy then none else parseDate (jsToString v)

/-- Model of `formatDate(dateStr, fallback)`: `MM/DD/` zero-padded, year as
`String(getUTCFullYear())`. -/
def formatDate (s : String) (fallback : String) : String :=
  if s = "" then fallback
  else
    match parseDate s with
    | some d =>
      padZero 2 (toString d.month) ++ "/" ++ padZero 2 (toString d.day) ++ "/" ++
        toString d.year
    | none => fallback

/-! ## `formatPercent` and `toFixed(1)` -/

/-- `q.toFixed(1)`'s rounded integer numerator: the integer `n` minimising
`|n / 10 - q|`, ties to the larger `n` (ES § 21.1.3.3). -/
def toFixedTenths (q : ℚ) : Int := ⌊q * 10 + 1 / 2⌋

/-- Model of `Number.prototype.toFixed(1)`. -/
def toFixed1 (q : ℚ) : String :=
  let n := toFixedTenths q
  (if n < 0 then "-" else "") ++ toString (n.natAbs / 10) ++ "." ++
    toString (n.natAbs % 10)

/-- Model of `formatPercent(value, 'N/A')`. -/
def formatPercent (v : JsVal) : String :=
  match safeFloat v none with
  | none => "N/A"
  | some q => toFixed1 q ++ "%"

/-! ## CSV cell formatting

```js
function formatCsvCell(value) {
    const stringValue = value === null || value === undefined ? '' : String(value);
    if (/[",\n]/.test(stringValue)) {
        const escapedValue = stringValue.replace(/"/g, '""');
        return `"${escapedValue}"`;
    }
    return stringValue;
}
```
The argument is modelled as `Option String`: `none` for `null`/`undefined`,
`some s` for any value with `String(value) = s`. -/

/-- A character that forces quoting: the regex class `[",\n]`. -/
def isCsvSpecial (c : Char) : Bool := c = '"' || c = ',' || c = '\n'

/-- `stringValue.replace(/"/g, '""')` over characters. -/
def escQuotes : List Char → List Char
  | [] => []
  | c :: r => if c = '"' then '"' :: '"' :: escQuotes r else c :: escQuotes r

/-- Model of `formatCsvCell` over the character list of `stringValue`. -/
def formatCsvCellChars (cs : List Char) : List Char :=
  if cs.any isCsvSpecial then '"' :: (escQuotes cs ++ ['"']) else cs

/-- Model of `formatCsvCell(value)`. -/
def formatCsvCell (v : Option String) : String :=
  ⟨formatCsvCellChars (match v with | none => "" | some s => s).data⟩

/-- `String(value)` with the null/undefined-to-empty convention of
`formatCsvCell`. -/
def csvStringValue : Option String → String
  | none => ""
  | some s => s

/-- Spec-side (RFC 4180) reading of the interior of a quoted cell: a doubled
double quote reads as a single one. -/
def unDouble : List Char → List Char
  | [] => []
  | [c] => [c]
  | c :: c2 :: r =>
    if c = '"' ∧ c2 = '"' then '"' :: unDouble r else c :: unDouble (c2 :: r)

/-- Spec-side standard CSV cell decoder, from the claim's wording: a cell
wrapped in double quotes is unwrapped with internal doubled quotes read as
single quotes; any other cell denotes itself. -/
def csvCellDecode (cell : String) : String :=
  match cell.data with
  | c :: rest =>
    if c = '"' ∧ rest.getLast? = some '"' then ⟨unDouble rest.dropLast⟩ else cell
  | [] => cell

/-! ## Table sorting

`renderActiveTable` / `renderCompletedTable` (script.js lines 812–922) copy
the corresponding store and sort it with a comparator dispatching on the sort
key; `setupSortListeners` (lines 2467–2525) maintains the `{key, direction}`
state.  A project row is a JS object, modelled as a function from property
names to values. -/

/-- A project row object: `row key` is `row[key]`. -/
def Row : Type := String → JsVal

/-- `const numericKeys = ['amount', 'status', 'remaining_amount',
'total_running_weeks', 'year']`. -/
def numericKeys : List String :=
  ["amount", "status", "remaining_amount", "total_running_weeks", "year"]

/-- `const dateKeys = ['po_date', 'date_completed']`. -/
def dateKeys : List String := ["po_date", "date_completed"]

/-- A sort direction (`currentSort.direction`). -/
inductive SortDir where
  | asc : SortDir
  | desc : SortDir
deriving DecidableEq

/-- `const sortMultiplier = direction === 'asc' ? 1 : -1`. -/
def sortMultiplier : SortDir → ℚ
  | .asc => 1
  | .desc => -1

/-- JS relational string comparison (`textA < textB` / `textA > textB`):
lexicographic on the character sequences, as a three-valued result. -/
def charListCmp : List Char → List Char → ℚ
  | [], [] => 0
  | [], _ :: _ => -1
  | _ :: _, [] => 1
  | a :: as, b :: bs =>
    if a.toNat < b.toNat then -1 else if b.toNat < a.toNat then 1 else charListCmp as bs

/-- The string-branch comparison value on two already-lowercased texts:
`-1`/`1` on the strict comparisons (scaled by the sort multiplier). -/
def strCmp (a b : String) : ℚ := charListCmp a.data b.data

/-- Sign of `dateA.getTime() - dateB.getTime()` for two midnight-UTC dates:
chronological comparison of the components. -/
def dateCmp (a b : UTCDate) : ℚ :=
  if a.year < b.year then -1
  else if b.year < a.year then 1
  else if a.month < b.month then -1
  else if b.month < a.month then 1
  else if a.day < b.day then -1
  else if b.day < a.day then 1
  else 0

/-- Assembly of a comparator branch whose missing values sort last in both
directions.  This is the exact value pattern of all four branches:
* string branches: the two unscaled early returns on empty text
  (`if (!textA && textB) return 1` etc.);
* date/numeric branches: the `direction === 'asc' ? Infinity : -Infinity`
  fallback, whose `(±∞ − t) * multiplier` difference is `+∞`/`−∞`/`NaN`
  (`NaN` comparator results count as `0`, ES § 23.1.3.30). -/
def cmpOpt {γ : Type} (inner : γ → γ → ℚ) : Option γ → Option γ → ℚ
  | none, none => 0
  | none, some _ => 1
  | some _, none => -1
  | some x, some y => inner x y

/-- The text the `latest_update` branch compares:
`String(a.latest_update || '').toLowerCase()`, with empty text (which the
branch orders last) as `none`. -/
def latestKeyText (v : JsVal) : Option String :=
  let t := strLower (if v.falsy then "" else jsToString v)
  if t = "" then none else some t

/-- The text the generic string branch compares:
`String(valA ?? '').toLowerCase()`, with empty text as `none`. -/
def genericKeyText (v : JsVal) : Option String :=
  let t := strLower (jsToString (match v with | .null => .str "" | w => w))
  if t = "" then none else some t

/-- The comparator passed to `dataToRender.sort` by `renderActiveTable` and
(verbatim the same) by `renderCompletedTable`, as a function of the
`currentSort` state. -/
def projectCmp (key : String) (dir : SortDir) (a b : Row) : ℚ :=
  let mult := sortMultiplier dir
  if key = "latest_update" then
    cmpOpt (fun x y => strCmp x y * mult) (latestKeyText (a key)) (latestKeyText (b key))
  else if dateKeys.contains key then
    cmpOpt (fun x y => dateCmp x y * mult) (parseDateVal (a key)) (parseDateVal (b key))
  else if numericKeys.contains key then
    cmpOpt (fun x y => (x - y) * mult) (safeFloat (a key) none) (safeFloat (b key) none)
  else
    cmpOpt (fun x y => strCmp x y * mult) (genericKeyText (a key)) (genericKeyText (b key))

/-- The non-strict order induced by the comparator (`cmp(a,b) <= 0`). -/
def projectLe (key : String) (dir : SortDir) (a b : Row) : Prop :=
  projectCmp key dir a b ≤ 0

instance (key : String) (dir : SortDir) : DecidableRel (projectLe key dir) :=
  fun a b => inferInstanceAs (Decidable (projectCmp key dir a b ≤ 0))

/-- Model of `dataToRender.sort(comparator)`: `Array.prototype.sort` is
stable (ES2023 § 23.1.3.30), and for a comparator inducing a total preorder —
proved below for `projectCmp` — every stable sort produces the same output,
so a stable insertion sort is an exact model. -/
def sortProjects (key : String) (dir : SortDir) (rows : List Row) : List Row :=
  List.insertionSort (projectLe key dir) rows

/-- The `currentSort` global. -/
structure SortState where
  key : String
  direction : SortDir

/-- The sort-state update performed by the header click listener in
`setupSortListeners`: same key toggles the direction, a new key starts
ascending. -/
def clickSortHeader (cur : SortState) (sortKey : String) : SortState :=
  if cur.key = sortKey then
    ⟨sortKey, if cur.direction = .asc then .desc else .asc⟩
  else ⟨sortKey, .asc⟩

/-- The row list rendered by `renderActiveTable`: the active store, sorted
when a sort key is set (`if (currentSort.key)`). -/
def renderActiveTableRows (sort : SortState) (currentProjectsData : List Row) : List Row :=
  if sort.key = "" then currentProjectsData
  else sortProjects sort.key sort.direction currentProjectsData

/-- The row list rendered by `renderCompletedTable` (same comparator and sort
state, applied to the completed store). -/
def renderCompletedTableRows (sort : SortState) (currentCompletedProjectsData : List Row) : List Row :=
  if sort.key = "" then currentCompletedProjectsData
  else sortProjects sort.key sort.direction currentCompletedProjectsData

/-! ### Spec-side descriptions of the resulting order -/

/-- Spec-side lexicographic (code-point) string order. -/
def charListLe : List Char → List Char → Prop
  | [], _ => True
  | _ :: _, [] => False
  | a :: as, b :: bs => a.toNat < b.toNat ∨ (a.toNat = b.toNat ∧ charListLe as bs)

/-- Spec-side chronological order on UTC dates. -/
def dateLe (a b : UTCDate) : Prop :=
  a.year < b.year ∨ (a.year = b.year ∧
    (a.month < b.month ∨ (a.month = b.month ∧ a.day ≤ b.day)))

/-- A base order read in the requested direction. -/
def dirLe {γ : Type} (le : γ → γ → Prop) : SortDir → γ → γ → Prop
  | .asc => le
  | .desc => fun x y => le y x

/-- A base order extended to optional values with the missing values placed
last regardless of direction. -/
def optLast {γ : Type} (le : γ → γ → Prop) : Option γ → Option γ → Prop
  | _, none => True
  | none, some _ => False
  | some x, some y => le x y

/-- The order the claim describes, amended only in that rows whose value for
the key is missing, unparseable or empty always come last: by `safeFloat`
value for the numeric keys, by parsed date for the date keys, by lowercased
string otherwise. -/
def specKeyOrder (key : String) (dir : SortDir) (a b : Row) : Prop :=
  if key = "latest_update" then
    optLast (dirLe (fun s t : String => charListLe s.data t.data) dir)
      (latestKeyText (a key)) (latestKeyText (b key))
  else if dateKeys.contains key then
    optLast (dirLe dateLe dir) (parseDateVal (a key)) (parseDateVal (b key))
  else if numericKeys.contains key then
    optLast (dirLe (fun x y : ℚ => x ≤ y) dir) (safeFloat (a key) none) (safeFloat (b key) none)
  else
    optLast (dirLe (fun s t : String => charListLe s.data t.data) dir)
      (genericKeyText (a key)) (genericKeyText (b key))

/-! ## Inline-edit event traces

`saveEdit` (script.js lines 1888–1999) and `saveEditedMrfItem`
(mrf_items_log.js lines 210–255) are modelled as the list of observable UI and
network events they emit, in program order. -/

/-- An observable event of the inline-edit procedures. -/
inductive UIEvent where
  | setCellText (s : String) : UIEvent
  | putRequest (field : String) (value : JsVal) : UIEvent
  | putResponse (ok : Bool) : UIEvent
  | feedback (msg : String) (kind : String) : UIEvent
  | alertMsg (msg : String) : UIEvent
  | cacheUpdate : UIEvent
  | updateRemainingCell : UIEvent
  | refetchActive : UIEvent
  | refetchCompleted : UIEvent
  | refreshDashboard : UIEvent
deriving DecidableEq

/-- The values `makeCellEditable` captures from the status cell it opens:
`originalDisplayValue = cell.textContent.trim()` and
`originalNumericValue = safeFloat(originalDisplayValue, 0)` (the latter is the
`originalValue` later handed to `saveEdit`/`formatPercent`). -/
def makeCellEditableCapture (cellText : String) : String × ℚ :=
  let originalDisplayValue := strTrim cellText
  (originalDisplayValue, safeFloatD (.str originalDisplayValue) 0)

/-- Event trace of `saveEdit(input, cell, projectId, 'status', originalValue)`
after its guard (`cell === currentlyEditingCell`) has passed and the edit lock
has been released.  Parameters: `originalValue` — the captured numeric
original; `newValueRaw` — `inputElement.value`; `putOk` — whether the PUT
settles successfully; `updatedReturned` — whether the response carries
`updatedProject`; `cacheHit` — whether the project id is found in a local
store; `errMsg` — the error message of a failed PUT.  The catch block runs
only under `error.message !== 'Unauthorized'` (line 1990): an Unauthorized
failure produces neither feedback nor a revert, leaving the cell at
`Saving...` (`apiFetch` redirects to the login page instead). -/
def saveEditStatusTrace (originalValue : ℚ) (newValueRaw : String)
    (putOk updatedReturned cacheHit : Bool) (errMsg : String) : List UIEvent :=
  let newValue := strTrim newValueRaw
  let invalid : List UIEvent :=
    [.feedback "Invalid Status value. Must be between 0 and 100." "error",
     .setCellText (formatPercent (.num originalValue))]
  match safeFloat (.str newValue) none with
  | none => invalid
  | some nv =>
    if nv < 0 ∨ 100 < nv then invalid
    else
      let displayValue := formatPercent (.num nv)
      if toFixedTenths nv = toFixedTenths originalValue then [.setCellText displayValue]
      else
        [.setCellText "Saving...", .putRequest "status" (.num nv), .putResponse putOk] ++
          if putOk then
            .setCellText displayValue ::
              (if updatedReturned then
                (if cacheHit then [.cacheUpdate] else [.refetchActive, .refetchCompleted]) ++
                  [.updateRemainingCell, .refreshDashboard]
              else [.refetchActive, .refetchCompleted, .refreshDashboard])
          else if errMsg = "Unauthorized" then []
          else
            [.feedback ("Error updating status: " ++ errMsg) "error",
             .setCellText (formatPercent (.num originalValue))]

/-- The `displayValue` a date-type MRF cell gets after a save:
`new Date(newValue)` rendered `${m}/${d}/${y}` un-padded (the date-input value
is an ISO date string, on which the engine's parse agrees with `parseDate`;
the local-time component reads assume a UTC host clock). -/
def mrfDateDisplay (v : String) : String :=
  match parseDate v with
  | some d => toString d.month ++ "/" ++ toString d.day ++ "/" ++ toString d.year
  | none => "NaN/NaN/NaN"

/-- Event trace of `saveEditedMrfItem(cellElement, newValue)`.  `cellText` is
`cellElement.textContent` as captured at entry — at that moment the cell
contains the editor widget, so for `<input>`/`<textarea>` editors it is `""`
and not the pre-edit display.  For a non-date cell the shown value is
`newValue` itself. -/
def saveEditedMrfItemTrace (cellText fieldName newValue : String)
    (isDateInput putOk : Bool) (errMsg : String) : List UIEvent :=
  let originalValue := cellText
  let displayValue :=
    if isDateInput then (if newValue = "" then "N/A" else mrfDateDisplay newValue)
    else newValue
  if newValue = originalValue ∨ (newValue = "" ∧ originalValue = "N/A") then
    [.setCellText originalValue]
  else
    [.putRequest fieldName (.str newValue), .putResponse putOk] ++
      if putOk then [.setCellText displayValue]
      else [.alertMsg ("Failed to save changes: " ++ errMsg), .setCellText originalValue]

/-- Whether an event is the settling of the PUT request. -/
def isPutResponse : UIEvent → Bool
  | .putResponse _ => true
  | _ => false

/-- Whether text `disp` is written to the cell strictly before the PUT request
settles (i.e. among the events preceding the first `putResponse`). -/
def shownBeforePutResponse (tr : List UIEvent) (disp : String) : Bool :=
  (tr.takeWhile (fun e => !isPutResponse e)).contains (.setCellText disp)

/-- The text the cell displays once the procedure has run: the payload of the
last `setCellText` event. -/
def finalCellText (tr : List UIEvent) : Option String :=
  (tr.filterMap (fun e => match e with | .setCellText s => some s | _ => none)).getLast?

/-! ## The single-editor lock

`makeCellEditable` / `saveEdit` / `cancelEdit` maintain the
`currentlyEditingCell` lock (script.js lines 1792–2026); the state machine
records the lock and the set of cells whose content is currently an editor
input. -/

/-- An inline-editing operation on the dashboard table; cells are named by
numbers. -/
inductive EditOp where
  | make (cell : Nat) (field : String) : EditOp
  | save (cell : Nat) : EditOp
  | cancel (cell : Nat) : EditOp
deriving DecidableEq

/-- The inline-editing state: `lock` is `currentlyEditingCell`, `editing`
lists the cells whose content has been replaced by an editor input. -/
structure EditorState where
  lock : Option Nat
  editing : List Nat
deriving DecidableEq

/-- One step of the inline-editing state, with the feedback it emits:
* `make c f` — refused with a warning while another cell holds the lock, a
  no-op on the locked cell itself or on a non-`status` field, and otherwise
  takes the lock and turns the cell into an editor;
* `save c` / `cancel c` — no-ops unless `c` holds the lock, otherwise they
  release the lock and write plain text back into the cell (every branch of
  `saveEdit` and of `cancelEdit` assigns `cell.textContent`). -/
def applyEditOp (st : EditorState) : EditOp → EditorState × List UIEvent
  | .make c f =>
    match st.lock with
    | some d =>
      if d ≠ c then (st, [.feedback "Please save or cancel the other edit first." "warning"])
      else (st, [])
    | none =>
      if f ≠ "status" then (st, [])
      else ({ lock := some c, editing := c :: st.editing.erase c }, [])
  | .save c =>
    if st.lock = some c then ({ lock := none, editing := st.editing.erase c }, [])
    else (st, [])
  | .cancel c =>
    if st.lock = some c then ({ lock := none, editing := st.editing.erase c }, [])
    else (st, [])

/-- The page's initial inline-editing state: no lock, no editor. -/
def initEditorState : EditorState := ⟨none, []⟩

/-- Run a sequence of inline-editing operations from the initial state. -/
def runEditOps (ops : List EditOp) : EditorState :=
  ops.foldl (fun st op => (applyEditOp st op).1) initEditorState

/-! ## The dashboard's client-side store

`currentProjectsData` / `currentCompletedProjectsData` (script.js lines
36–38) retain the last fetched project lists; `openEditModal` (lines
954–999) and the CSV exports (lines 2098–2106) read them. -/

/-- The dashboard's retained client-side state. -/
structure DashState where
  currentProjectsData : List Row
  currentCompletedProjectsData : List Row

/-- JS object spread `{ ...p, ...upd }`: the update's properties (a partial
object, `none` for absent keys) override the row's. -/
def mergeSpread (p : Row) (upd : String → Option JsVal) : Row :=
  fun k => (upd k).getD (p k)

/-- Replace the first row whose `id` matches (`findIndex(p => p.id ==
projectId)` followed by an indexed assignment of the spread merge). -/
def mergeFirst (projectId : ℚ) (upd : String → Option JsVal) : List Row → List Row
  | [] => []
  | p :: rest =>
    if p "id" == JsVal.num projectId then mergeSpread p upd :: rest
    else p :: mergeFirst projectId upd rest

/-- A dashboard operation touching project data.  `saveEditMerge` is the
store write of a successful inline edit: `saveEdit` merges the response's
`updatedProject` into the matching row of a store in place (script.js lines
1957–1967). -/
inductive DashOp where
  | fetchActive (rows : List Row) : DashOp
  | fetchCompleted (rows : List Row) : DashOp
  | openEdit (projectId : ℚ) : DashOp
  | exportActive : DashOp
  | exportCompleted : DashOp
  | saveEditMerge (projectId : ℚ) (upd : String → Option JsVal) : DashOp

/-- State transition: the fetches overwrite a store
(`currentProjectsData = data || []`, line 421, and its completed
counterpart); a successful inline edit merges `updatedProject` into the
matching row of the active store, else of the completed store (lines
1957–1967; when the id is in neither store the code refetches both lists
instead, which this algebra represents by explicit fetch operations);
`openEditModal` and the exports leave the stores unchanged. -/
def applyDashOp (st : DashState) : DashOp → DashState
  | .fetchActive rows => { st with currentProjectsData := rows }
  | .fetchCompleted rows => { st with currentCompletedProjectsData := rows }
  | .openEdit _ => st
  | .exportActive => st
  | .exportCompleted => st
  | .saveEditMerge pid upd =>
    if st.currentProjectsData.any (fun p => p "id" == JsVal.num pid) then
      { st with currentProjectsData := mergeFirst pid upd st.currentProjectsData }
    else if st.currentCompletedProjectsData.any (fun p => p "id" == JsVal.num pid) then
      { st with currentCompletedProjectsData := mergeFirst pid upd st.currentCompletedProjectsData }
    else st

/-- Whether the operation performs an API request for project data: the two
fetches do, and a `saveEditMerge` is carried by its PUT — `openEditModal` and
the exports contain no `apiFetch` call. -/
def dashOpUsesApi : DashOp → Bool
  | .fetchActive _ => true
  | .fetchCompleted _ => true
  | .openEdit _ => false
  | .exportActive => false
  | .exportCompleted => false
  | .saveEditMerge _ _ => true

/-- Whether the operation is an inline-edit store merge. -/
def isMerge : DashOp → Bool
  | .saveEditMerge _ _ => true
  | _ => false

/-- The partial update used in the concrete store examples below: a status
write of `50`. -/
def exStatusUpd : String → Option JsVal :=
  fun k => if k = "status" then some (.num 50) else none

/-- The initial store state (both globals start `[]`). -/
def initDashState : DashState := ⟨[], []⟩

/-- Run a sequence of dashboard operations from the initial state. -/
def runDashOps (ops : List DashOp) : DashState :=
  ops.foldl applyDashOp initDashState

/-- The project `openEditModal(projectId)` populates its form from:
`currentProjectsData.find(p => p.id === projectId) ||
currentCompletedProjectsData.find(...)`. -/
def openEditLookup (st : DashState) (projectId : ℚ) : Option Row :=
  match st.currentProjectsData.find? (fun p => p "id" == JsVal.num projectId) with
  | some p => some p
  | none => st.currentCompletedProjectsData.find? (fun p => p "id" == JsVal.num projectId)

/-- The rows `exportActiveToCSV` hands to `exportToCSV`:
`exportToCSV(currentProjectsData, 'Active_Projects')`. -/
def exportActiveRows (st : DashState) : List Row := st.currentProjectsData

/-- The rows `exportCompletedToCSV` hands to `exportToCSV`. -/
def exportCompletedRows (st : DashState) : List Row := st.currentCompletedProjectsData

/-- The payload of the last `fetchActive` in an operation sequence (the empty
list when there is none). -/
def lastFetchedActive (ops : List DashOp) : List Row :=
  ops.foldl (fun acc op => match op with | .fetchActive r => r | _ => acc) []

/-- The payload of the last `fetchCompleted` in an operation sequence. -/
def lastFetchedCompleted (ops : List DashOp) : List Row :=
  ops.foldl (fun acc op => match op with | .fetchCompleted r => r | _ => acc) []

/-! ## The Add-Forecast form -/

/-- The JSON body `handleAddForecastSubmit` POSTs to `/api/forecast`. -/
structure ForecastPayload where
  project_id : Int
  forecast_input_type : String
  forecast_input_value : ℚ
  forecast_date : String
  is_deduction : Bool
deriving DecidableEq

/-- Model of `handleAddForecastSubmit` (script.js lines 1399–1512) from the
form reads to the POST body: `projectId` is the `parseInt(projectId, 10)`
result (`none` for `NaN`); `amountRaw`/`percentRaw` are the two value fields;
`none` means validation failed and nothing is sent.  The JS literal `0.30` is
the exact rational `3/10` in this model. -/
def handleAddForecastPayload (projectId : Option Int) (amountRaw percentRaw dateValue : String)
    (isDeductionChecked : Bool) : Option ForecastPayload :=
  let amountStr := strTrim amountRaw
  let percentStr := strTrim percentRaw
  match projectId with
  | none => none
  | some pid =>
    if dateValue = "" then none
    else if parseDate dateValue = none then none
    else
      let send : String → ℚ → Option ForecastPayload := fun ty v =>
        let finalValue := if isDeductionChecked then v * (3 / 10 : ℚ) else v
        some ⟨pid, ty, finalValue, dateValue, isDeductionChecked⟩
      if amountStr ≠ "" then
        if percentStr ≠ "" then none
        else
          match safeFloat (.str amountStr) none with
          | none => none
          | some v => send "amount" v
      else if percentStr ≠ "" then
        match safeFloat (.str percentStr) none with
        | none => none
        | some v => send "percent" v
      else none

/-! ## MRF item statuses -/

/-- The option list `setupEditableCell` builds for the `item_status` select
(mrf_items_log.js line 87). -/
def mrfItemStatusOptions : List String :=
  ["Processing", "Pending Approval", "For Purchase Order", "Awaiting Delivery",
   "Delivered to CMR", "Delivered to Site", "Cancelled", "On Hold"]

/-- The `value` attributes of the `#filterStatus` select options
(mrf_items_log.html lines 199–209); `""` is the `All Statuses` choice. -/
def filterStatusOptionValues : List String :=
  ["", "Processing", "Pending Approval", "For Purchase Order", "Awaiting Delivery",
   "Delivered to CMR", "Delivered to Site", "Cancelled", "On Hold"]

/-- The status a user assigns by picking entry `i` of the status select: the
select offers exactly the built option list. -/
def mrfStatusSelectValue (i : Nat) : Option String := mrfItemStatusOptions.get? i

/-- The eight statuses named by the claim. -/
def claimedMrfStatuses : List String :=
  ["Processing", "Pending Approval", "For Purchase Order", "Awaiting Delivery",
   "Delivered to CMR", "Delivered to Site", "Cancelled", "On Hold"]

/-! ## Concrete-instance helpers and decidability -/

/-- A row with a single non-null property. -/
def rowWith (key : String) (v : JsVal) : Row :=
  fun k => if k = key then v else .null

/-- The lowercased string the claim says the sort compares for a generic key
(`String(value ?? '').toLowerCase()`), without any further adjustment. -/
def lowerGeneric (v : JsVal) : String :=
  strLower (jsToString (match v with | .null => .str "" | w => w))

/-- The character list of the string `YYYY-MM-DD` for the given (base-10,
bounded) components. -/
def isoChars (y m d : Nat) : List Char :=
  [dch (y / 1000), dch (y / 100), dch (y / 10), dch y, '-',
   dch (m / 10), dch m, '-', dch (d / 10), dch d]

instance charListLeDec : ∀ as bs : List Char, Decidable (charListLe as bs)
  | [], _ => .isTrue trivial
  | _ :: _, [] => .isFalse fun h => h
  | a :: as, b :: bs =>
    haveI := charListLeDec as bs
    decidable_of_iff (a.toNat < b.toNat ∨ (a.toNat = b.toNat ∧ charListLe as bs)) Iff.rfl

instance : DecidableRel dateLe := fun a b => by
  unfold dateLe
  infer_instance

instance {γ : Type} {le : γ → γ → Prop} [DecidableRel le] (dir : SortDir) :
    DecidableRel (dirLe le dir) := fun x y =>
  match dir with
  | .asc => inferInstanceAs (Decidable (le x y))
  | .desc => inferInstanceAs (Decidable (le y x))

instance {γ : Type} {le : γ → γ → Prop} [DecidableRel le] :
    ∀ a b : Option γ, Decidable (optLast le a b)
  | none, none => .isTrue trivial
  | some _, none => .isTrue trivial
  | none, some _ => .isFalse fun h => h
  | some x, some y => inferInstanceAs (Decidable (le x y))

instance (key : String) (dir : SortDir) : DecidableRel (specKeyOrder key dir) := fun a b => by
  unfold specKeyOrder
  infer_instance

/-! # Theorems

## Order theory of the comparator -/

theorem charListCmp_le_iff : ∀ as bs : List Char, charListCmp as bs ≤ 0 ↔ charListLe as bs
  | [], [] => by norm_num [charListCmp, charListLe]
  | [], _ :: _ => by norm_num [charListCmp, charListLe]
  | _ :: _, [] => by norm_num [charListCmp, charListLe]
  | a :: as, b :: bs => by
    by_cases h1 : a.toNat < b.toNat
    · simp only [charListCmp, charListLe, if_pos h1]
      exact iff_of_true (by norm_num) (Or.inl h1)
    · by_cases h2 : b.toNat < a.toNat
      · simp only [charListCmp, charListLe, if_neg h1, if_pos h2]
        exact iff_of_false (by norm_num) (by omega)
      · simp only [charListCmp, charListLe, if_neg h1, if_neg h2]
        rw [charListCmp_le_iff as bs]
        constructor
        · exact fun h => Or.inr ⟨by omega, h⟩
        · rintro (h | ⟨-, h⟩)
          · omega
          · exact h

theorem charListCmp_nonneg_iff : ∀ as bs : List Char, 0 ≤ charListCmp as bs ↔ charListLe bs as
  | [], [] => by norm_num [charListCmp, charListLe]
  | [], _ :: _ => by norm_num [charListCmp, charListLe]
  | _ :: _, [] => by norm_num [charListCmp, charListLe]
  | a :: as, b :: bs => by
    by_cases h1 : a.toNat < b.toNat
    · simp only [charListCmp, charListLe, if_pos h1]
      exact iff_of_false (by norm_num) (by omega)
    · by_cases h2 : b.toNat < a.toNat
      · simp only [charListCmp, charListLe, if_neg h1, if_pos h2]
        exact iff_of_true (by norm_num) (Or.inl h2)
      · simp only [charListCmp, charListLe, if_neg h1, if_neg h2]
        rw [charListCmp_nonneg_iff as bs]
        constructor
        · exact fun h => Or.inr ⟨by omega, h⟩
        · rintro (h | ⟨-, h⟩)
          · omega
          · exact h

theorem charListLe_total : ∀ as bs : List Char, charListLe as bs ∨ charListLe bs as
  | [], _ => Or.inl trivial
  | _ :: _, [] => Or.inr trivial
  | a :: as, b :: bs => by
    rcases Nat.lt_trichotomy a.toNat b.toNat with h | h | h
    · exact Or.inl (Or.inl h)
    · rcases charListLe_total as bs with hr | hr
      · exact Or.inl (Or.inr ⟨h, hr⟩)
      · exact Or.inr (Or.inr ⟨h.symm, hr⟩)
    · exact Or.inr (Or.inl h)

theorem charListLe_trans :
    ∀ as bs cs : List Char, charListLe as bs → charListLe bs cs → charListLe as cs
  | [], _, _ => fun _ _ => trivial
  | _ :: _, [], _ => fun h _ => absurd h (fun h => h)
  | _ :: _, _ :: _, [] => fun _ h => absurd h (fun h => h)
  | a :: as, b :: bs, c :: cs => by
    rintro (h1 | ⟨h1, h1'⟩) (h2 | ⟨h2, h2'⟩)
    · exact Or.inl (by omega)
    · exact Or.inl (by omega)
    · exact Or.inl (by omega)
    · exact Or.inr ⟨by omega, charListLe_trans as bs cs h1' h2'⟩

theorem dateCmp_le_iff (a b : UTCDate) : dateCmp a b ≤ 0 ↔ dateLe a b := by
  unfold dateCmp dateLe
  split_ifs <;>
    first
      | (apply iff_of_true (by norm_num); omega)
      | (apply iff_of_false (by norm_num); omega)

theorem dateCmp_nonneg_iff (a b : UTCDate) : 0 ≤ dateCmp a b ↔ dateLe b a := by
  unfold dateCmp dateLe
  split_ifs <;>
    first
      | (apply iff_of_true (by norm_num); omega)
      | (apply iff_of_false (by norm_num); omega)

theorem dateLe_total (a b : UTCDate) : dateLe a b ∨ dateLe b a := by
  unfold dateLe
  omega

theorem dateLe_trans (a b c : UTCDate) : dateLe a b → dateLe b c → dateLe a c := by
  unfold dateLe
  omega

theorem strBranch_le_iff (dir : SortDir) (x y : String) :
    strCmp x y * sortMultiplier dir ≤ 0 ↔
      dirLe (fun s t : String => charListLe s.data t.data) dir x y := by
  cases dir
  · rw [sortMultiplier, mul_one]
    exact charListCmp_le_iff x.data y.data
  · rw [sortMultiplier, mul_neg_one, neg_nonpos]
    exact charListCmp_nonneg_iff x.data y.data

theorem dateBranch_le_iff (dir : SortDir) (x y : UTCDate) :
    dateCmp x y * sortMultiplier dir ≤ 0 ↔ dirLe dateLe dir x y := by
  cases dir
  · rw [sortMultiplier, mul_one]
    exact dateCmp_le_iff x y
  · rw [sortMultiplier, mul_neg_one, neg_nonpos]
    exact dateCmp_nonneg_iff x y

theorem numBranch_le_iff (dir : SortDir) (x y : ℚ) :
    (x - y) * sortMultiplier dir ≤ 0 ↔ dirLe (fun p q : ℚ => p ≤ q) dir x y := by
  cases dir
  · rw [sortMultiplier, mul_one, sub_nonpos]
    exact Iff.rfl
  · rw [sortMultiplier, mul_neg_one, neg_nonpos, sub_nonneg]
    exact Iff.rfl

theorem cmpOpt_le_iff {γ : Type} (inner : γ → γ → ℚ) (le : γ → γ → Prop)
    (h : ∀ x y, inner x y ≤ 0 ↔ le x y) :
    ∀ a b : Option γ, cmpOpt inner a b ≤ 0 ↔ optLast le a b
  | none, none => by norm_num [cmpOpt, optLast]
  | none, some _ => by norm_num [cmpOpt, optLast]
  | some _, none => by norm_num [cmpOpt, optLast]
  | some x, some y => h x y

theorem optLast_total {γ : Type} {le : γ → γ → Prop}
    (h : ∀ x y, le x y ∨ le y x) :
    ∀ a b : Option γ, optLast le a b ∨ optLast le b a
  | none, none => Or.inl trivial
  | some _, none => Or.inl trivial
  | none, some _ => Or.inr trivial
  | some x, some y => h x y

theorem optLast_trans {γ : Type} {le : γ → γ → Prop}
    (h : ∀ x y z, le x y → le y z → le x z) :
    ∀ a b c : Option γ, optLast le a b → optLast le b c → optLast le a c
  | none, none, none => fun _ _ => trivial
  | none, some _, none => fun _ _ => trivial
  | none, none, some _ => fun _ h2 => absurd h2 (fun h2 => h2)
  | none, some _, some _ => fun h1 _ => absurd h1 (fun h1 => h1)
  | some _, none, none => fun _ _ => trivial
  | some _, some _, none => fun _ _ => trivial
  | some _, none, some _ => fun _ h2 => absurd h2 (fun h2 => h2)
  | some x, some y, some z => h x y z

/-- The comparator's non-strict order coincides, branch by branch, with the
directed nulls-last reading of the claimed per-key orders. -/
theorem projectLe_iff_spec (key : String) (dir : SortDir) (a b : Row) :
    projectLe key dir a b ↔ specKeyOrder key dir a b := by
  unfold projectLe projectCmp specKeyOrder
  split_ifs with h1 h2 h3
  · exact cmpOpt_le_iff _ _ (strBranch_le_iff dir) _ _
  · exact cmpOpt_le_iff _ _ (dateBranch_le_iff dir) _ _
  · exact cmpOpt_le_iff _ _ (numBranch_le_iff dir) _ _
  · exact cmpOpt_le_iff _ _ (strBranch_le_iff dir) _ _

theorem dirLe_total {γ : Type} (le : γ → γ → Prop) (h : ∀ x y, le x y ∨ le y x)
    (dir : SortDir) (x y : γ) : dirLe le dir x y ∨ dirLe le dir y x := by
  cases dir
  · exact h x y
  · exact h y x

theorem dirLe_trans {γ : Type} (le : γ → γ → Prop)
    (h : ∀ x y z, le x y → le y z → le x z) (dir : SortDir) (x y z : γ) :
    dirLe le dir x y → dirLe le dir y z → dirLe le dir x z := by
  cases dir
  · exact h x y z
  · exact fun h1 h2 => h z y x h2 h1

theorem specKeyOrder_total (key : String) (dir : SortDir) (a b : Row) :
    specKeyOrder key dir a b ∨ specKeyOrder key dir b a := by
  unfold specKeyOrder
  split_ifs
  · exact optLast_total
      (dirLe_total _ (fun x y : String => charListLe_total x.data y.data) dir) _ _
  · exact optLast_total (dirLe_total _ dateLe_total dir) _ _
  · exact optLast_total (dirLe_total _ (fun x y : ℚ => @le_total ℚ _ x y) dir) _ _
  · exact optLast_total
      (dirLe_total _ (fun x y : String => charListLe_total x.data y.data) dir) _ _

theorem specKeyOrder_trans (key : String) (dir : SortDir) (a b c : Row) :
    specKeyOrder key dir a b → specKeyOrder key dir b c → specKeyOrder key dir a c := by
  unfold specKeyOrder
  split_ifs
  · exact optLast_trans
      (dirLe_trans _ (fun x y z : String => charListLe_trans x.data y.data z.data) dir) _ _ _
  · exact optLast_trans (dirLe_trans _ dateLe_trans dir) _ _ _
  · exact optLast_trans
      (dirLe_trans _ (fun x y z : ℚ => fun hxy hyz => hxy.trans hyz) dir) _ _ _
  · exact optLast_trans
      (dirLe_trans _ (fun x y z : String => charListLe_trans x.data y.data z.data) dir) _ _ _

theorem clickSortHeader_key (cur : SortState) (k : String) :
    (clickSortHeader cur k).key = k := by
  unfold clickSortHeader
  split_ifs <;> rfl

/-! ## C1 — rendered tables stay sorted by the last clicked column -/

/-- C1 (amended): after any header click setting `{key, direction}`, the lists
rendered by `renderActiveTable` and `renderCompletedTable` are permutations of
the stores ordered by that key — numerically for
amount/status/remaining_amount/total_running_weeks/year, by parsed date for
po_date/date_completed, case-insensitive lexicographically otherwise,
ascending for 'asc' and descending for 'desc' — except that rows whose value
for the key is missing, unparseable or empty are always placed last. -/
theorem rendered_tables_sorted_by_current_sort (cur : SortState) (k : String)
    (hk : k ≠ "") (active completed : List Row) :
    (renderActiveTableRows (clickSortHeader cur k) active).Perm active ∧
    List.Sorted (specKeyOrder (clickSortHeader cur k).key (clickSortHeader cur k).direction)
      (renderActiveTableRows (clickSortHeader cur k) active) ∧
    (renderCompletedTableRows (clickSortHeader cur k) completed).Perm completed ∧
    List.Sorted (specKeyOrder (clickSortHeader cur k).key (clickSortHeader cur k).direction)
      (renderCompletedTableRows (clickSortHeader cur k) completed) := by
  have hkey : (clickSortHeader cur k).key = k := clickSortHeader_key cur k
  have hne : (clickSortHeader cur k).key ≠ "" := by rw [hkey]; exact hk
  haveI : IsTotal Row (projectLe (clickSortHeader cur k).key (clickSortHeader cur k).direction) :=
    ⟨fun a b => by
      rw [projectLe_iff_spec, projectLe_iff_spec]
      exact specKeyOrder_total _ _ a b⟩
  haveI : IsTrans Row (projectLe (clickSortHeader cur k).key (clickSortHeader cur k).direction) :=
    ⟨fun a b c hab hbc => by
      rw [projectLe_iff_spec] at hab hbc ⊢
      exact specKeyOrder_trans _ _ a b c hab hbc⟩
  have hact : renderActiveTableRows (clickSortHeader cur k) active =
      List.insertionSort
        (projectLe (clickSortHeader cur k).key (clickSortHeader cur k).direction) active := by
    rw [renderActiveTableRows, if_neg hne]; rfl
  have hcom : renderCompletedTableRows (clickSortHeader cur k) completed =
      List.insertionSort
        (projectLe (clickSortHeader cur k).key (clickSortHeader cur k).direction) completed := by
    rw [renderCompletedTableRows, if_neg hne]; rfl
  refine ⟨?_, ?_, ?_, ?_⟩
  · rw [hact]; exact List.perm_insertionSort _ active
  · rw [hact]
    exact (List.sorted_insertionSort _ active).imp fun hab => (projectLe_iff_spec _ _ _ _).mp hab
  · rw [hcom]; exact List.perm_insertionSort _ completed
  · rw [hcom]
    exact (List.sorted_insertionSort _ completed).imp fun hab => (projectLe_iff_spec _ _ _ _).mp hab

/-- C1 counterexample: as literally stated the claim fails — sorting by the
string key `project_name` in ascending direction does not leave the list in
ascending lexicographic order of the lowercased values, because a row with an
empty value is placed after a row with value `"a"` (the comparator's two
unscaled early returns pin empty text last in both directions). -/
theorem rendered_sort_not_plain_lexicographic :
    ¬ List.Sorted
        (fun a b : Row =>
          charListLe (lowerGeneric (a "project_name")).data (lowerGeneric (b "project_name")).data)
        (sortProjects "project_name" SortDir.asc
          [rowWith "project_name" (.str "a"), rowWith "project_name" (.str "")]) := by
  decide

/-- C1 witness: the sorted-rendering theorem applied to a click on the
`client` header over a concrete two-row store. -/
theorem rendered_tables_sorted_witness :
    ("client" : String) ≠ "" ∧
    ((renderActiveTableRows (clickSortHeader ⟨"remaining_amount", SortDir.desc⟩ "client")
        [rowWith "client" (.str "B"), rowWith "client" (.str "a")]).Perm
      [rowWith "client" (.str "B"), rowWith "client" (.str "a")] ∧
    List.Sorted
      (specKeyOrder (clickSortHeader ⟨"remaining_amount", SortDir.desc⟩ "client").key
        (clickSortHeader ⟨"remaining_amount", SortDir.desc⟩ "client").direction)
      (renderActiveTableRows (clickSortHeader ⟨"remaining_amount", SortDir.desc⟩ "client")
        [rowWith "client" (.str "B"), rowWith "client" (.str "a")]) ∧
    (renderCompletedTableRows (clickSortHeader ⟨"remaining_amount", SortDir.desc⟩ "client")
        ([] : List Row)).Perm [] ∧
    List.Sorted
      (specKeyOrder (clickSortHeader ⟨"remaining_amount", SortDir.desc⟩ "client").key
        (clickSortHeader ⟨"remaining_amount", SortDir.desc⟩ "client").direction)
      (renderCompletedTableRows (clickSortHeader ⟨"remaining_amount", SortDir.desc⟩ "client")
        ([] : List Row))) :=
  ⟨by decide,
    rendered_tables_sorted_by_current_sort ⟨"remaining_amount", SortDir.desc⟩ "client"
      (by decide) [rowWith "client" (.str "B"), rowWith "client" (.str "a")] []⟩

/-! ## C4 — what the comparator actually compares -/

/-- C4 (amended): the table-sort comparator compares values as lowercased
strings only for the keys outside the numeric and date lists (with empty text
last; `latest_update` additionally coerces falsy values to empty text); the
five numeric keys are compared as `safeFloat` numbers and the two date keys by
parsed date, missing values last. -/
theorem comparator_branches_by_key_type :
    (∀ (key : String) (dir : SortDir) (a b : Row),
        key ≠ "latest_update" → dateKeys.contains key = false →
        numericKeys.contains key = false →
        (projectLe key dir a b ↔
          optLast (dirLe (fun s t : String => charListLe s.data t.data) dir)
            (genericKeyText (a key)) (genericKeyText (b key)))) ∧
    (∀ (key : String) (dir : SortDir) (a b : Row),
        key ≠ "latest_update" → dateKeys.contains key = false →
        numericKeys.contains key = true →
        (projectLe key dir a b ↔
          optLast (dirLe (fun x y : ℚ => x ≤ y) dir)
            (safeFloat (a key) none) (safeFloat (b key) none))) ∧
    (∀ (key : String) (dir : SortDir) (a b : Row),
        key ≠ "latest_update" → dateKeys.contains key = true →
        (projectLe key dir a b ↔
          optLast (dirLe dateLe dir) (parseDateVal (a key)) (parseDateVal (b key)))) ∧
    (∀ (dir : SortDir) (a b : Row),
        projectLe "latest_update" dir a b ↔
          optLast (dirLe (fun s t : String => charListLe s.data t.data) dir)
            (latestKeyText (a "latest_update")) (latestKeyText (b "latest_update"))) := by
  refine ⟨?_, ?_, ?_, ?_⟩
  · intro key dir a b h1 h2 h3
    unfold projectLe projectCmp
    rw [if_neg h1, h2, if_neg (by simp), h3, if_neg (by simp)]
    exact cmpOpt_le_iff _ _ (strBranch_le_iff dir) _ _
  · intro key dir a b h1 h2 h3
    unfold projectLe projectCmp
    rw [if_neg h1, h2, if_neg (by simp), h3, if_pos (by simp)]
    exact cmpOpt_le_iff _ _ (numBranch_le_iff dir) _ _
  · intro key dir a b h1 h2
    unfold projectLe projectCmp
    rw [if_neg h1, h2, if_pos (by simp)]
    exact cmpOpt_le_iff _ _ (dateBranch_le_iff dir) _ _
  · intro dir a b
    unfold projectLe projectCmp
    rw [if_pos rfl]
    exact cmpOpt_le_iff _ _ (strBranch_le_iff dir) _ _

unseal Rat.sub Rat.mul Rat.add Rat.inv in
/-- C4 counterexample: for the sort key `amount` the comparator does not
compare the values as (lowercased) strings — it orders the row with value `9`
before the row with value `10`, while the lowercased strings compare the other
way (`"10" < "9"`). -/
theorem comparator_not_string_on_amount :
    projectLe "amount" SortDir.asc (rowWith "amount" (.num 9)) (rowWith "amount" (.num 10)) ∧
    ¬ charListLe (lowerGeneric ((rowWith "amount" (.num 9)) "amount")).data
        (lowerGeneric ((rowWith "amount" (.num 10)) "amount")).data := by
  decide

/-- C4 witness: the branch characterisation applied at the key `client`
(string branch) and at the key `amount` (numeric branch) on concrete rows. -/
theorem comparator_branches_witness :
    (projectLe "client" SortDir.asc (rowWith "client" (.str "a")) (rowWith "client" (.str "B")) ↔
      optLast (dirLe (fun s t : String => charListLe s.data t.data) SortDir.asc)
        (genericKeyText ((rowWith "client" (.str "a")) "client"))
        (genericKeyText ((rowWith "client" (.str "B")) "client"))) ∧
    (projectLe "amount" SortDir.desc (rowWith "amount" (.num 9)) (rowWith "amount" (.num 10)) ↔
      optLast (dirLe (fun x y : ℚ => x ≤ y) SortDir.desc)
        (safeFloat ((rowWith "amount" (.num 9)) "amount") none)
        (safeFloat ((rowWith "amount" (.num 10)) "amount") none)) :=
  ⟨comparator_branches_by_key_type.1 "client" SortDir.asc _ _ (by decide) (by decide) (by decide),
    comparator_branches_by_key_type.2.1 "amount" SortDir.desc _ _ (by decide) (by decide)
      (by decide)⟩

/-! ## C5 — CSV cell escaping round-trips -/

theorem unDouble_escQuotes (cs : List Char) : unDouble (escQuotes cs) = cs := by
  induction cs with
  | nil => rfl
  | cons c r ih =>
    by_cases hc : c = '"'
    · subst hc
      simpa [escQuotes, unDouble] using ih
    · cases hr : escQuotes r with
      | nil =>
        cases r with
        | nil => simp [escQuotes, hc, unDouble]
        | cons d l =>
          exfalso
          by_cases hd : d = '"' <;> simp [escQuotes, hd] at hr
      | cons d l =>
        rw [escQuotes, if_neg hc, hr, unDouble, if_neg (by simp [hc]), ← hr, ih]

/-- C5: CSV-cell escaping round-trips — for every value, a standard (RFC 4180)
CSV reading of `formatCsvCell(value)` decodes back to `String(value)`, and to
the empty string when the value is null or undefined; a value containing no
comma, double quote, or newline is returned unchanged. -/
theorem formatCsvCell_roundtrip :
    (∀ v : Option String, csvCellDecode (formatCsvCell v) = csvStringValue v) ∧
    (∀ s : String, s.data.any isCsvSpecial = false → formatCsvCell (some s) = s) := by
  have hplain : ∀ s : String, s.data.any isCsvSpecial = false → formatCsvCell (some s) = s := by
    intro s h
    show (⟨formatCsvCellChars s.data⟩ : String) = s
    rw [formatCsvCellChars, if_neg (by rw [h]; exact Bool.false_ne_true)]
  refine ⟨?_, hplain⟩
  rintro (_ | s)
  · rfl
  · show csvCellDecode (formatCsvCell (some s)) = s
    by_cases hs : s.data.any isCsvSpecial = true
    · have hform : formatCsvCell (some s) = ⟨'"' :: (escQuotes s.data ++ ['"'])⟩ := by
        show (⟨formatCsvCellChars s.data⟩ : String) = _
        rw [formatCsvCellChars, if_pos hs]
      rw [hform]
      show (if ('"' = '"' ∧ (escQuotes s.data ++ ['"']).getLast? = some '"') then
          (⟨unDouble (escQuotes s.data ++ ['"']).dropLast⟩ : String)
        else ⟨'"' :: (escQuotes s.data ++ ['"'])⟩) = s
      rw [if_pos ⟨rfl, by rw [List.getLast?_concat]⟩, List.dropLast_concat, unDouble_escQuotes]
    · have h : s.data.any isCsvSpecial = false := by
        cases hx : s.data.any isCsvSpecial
        · rfl
        · exact absurd hx hs
      rw [hplain s h, csvCellDecode]
      cases hd : s.data with
      | nil => rfl
      | cons c rest =>
        have hc : ¬(c = '"' ∧ rest.getLast? = some '"') := by
          rintro ⟨hceq, -⟩
          have hmem : c ∈ s.data := by rw [hd]; exact List.mem_cons_self c rest
          have hnp := List.any_eq_false.mp h c hmem
          apply hnp
          rw [hceq]
          rfl
        exact if_neg hc

/-- C5 witness: the round-trip theorem evaluated at a plain value, at `null`,
and at a value needing quoting. -/
theorem formatCsvCell_roundtrip_witness :
    ("plain" : String).data.any isCsvSpecial = false ∧
    formatCsvCell (some "plain") = "plain" ∧
    csvCellDecode (formatCsvCell (some "a,\"b\"")) = csvStringValue (some "a,\"b\"") ∧
    csvCellDecode (formatCsvCell none) = "" :=
  ⟨by decide, formatCsvCell_roundtrip.2 "plain" (by decide),
    formatCsvCell_roundtrip.1 (some "a,\"b\""), formatCsvCell_roundtrip.1 none⟩

/-! ## C6 — the eight fixed MRF item statuses -/

/-- C6: every status a user can assign through the items-log status select,
and every (non-`All Statuses`) status offered by the status filter, is one of
exactly the eight fixed values Processing, Pending Approval, For Purchase
Order, Awaiting Delivery, Delivered to CMR, Delivered to Site, Cancelled,
On Hold. -/
theorem mrf_statuses_are_the_eight_fixed_values :
    mrfItemStatusOptions = claimedMrfStatuses ∧
    (∀ (i : Nat) (s : String), mrfStatusSelectValue i = some s → s ∈ claimedMrfStatuses) ∧
    filterStatusOptionValues.filter (fun s => s != "") = claimedMrfStatuses := by
  refine ⟨rfl, ?_, by decide⟩
  intro i s h
  exact List.get?_mem h

/-- C6 witness: the first select entry assigns `Processing`, which is among
the eight claimed statuses. -/
theorem mrf_statuses_witness :
    mrfStatusSelectValue 0 = some "Processing" ∧ ("Processing" : String) ∈ claimedMrfStatuses :=
  ⟨rfl, mrf_statuses_are_the_eight_fixed_values.2.1 0 "Processing" rfl⟩

/-! ## C2 — inline edits are not optimistic updates -/

theorem formatPercent_num_ne_saving (q : ℚ) : formatPercent (.num q) ≠ "Saving..." := by
  show toFixed1 q ++ "%" ≠ "Saving..."
  intro h
  have hd := congrArg String.data h
  rw [String.data_append] at hd
  have h1 : ((toFixed1 q).data ++ ("%" : String).data).getLast? = some '%' := by
    rw [show ("%" : String).data = ['%'] from rfl, List.getLast?_concat]
  rw [hd] at h1
  exact absurd h1 (by decide)

unseal Rat.sub Rat.mul Rat.add Rat.inv in
/-- C2 counterexample: with original status `75`, a user entry of `80` and a
PUT that succeeds, `saveEdit` does not display the new value before the PUT
settles — the new text `80.0%` is absent from the events preceding the
response (the cell shows `Saving...`) and appears only afterwards; likewise
`saveEditedMrfItem` writes the new value to the cell only after its PUT
responds. -/
theorem inline_edit_not_optimistic :
    shownBeforePutResponse (saveEditStatusTrace 75 "80" true true true "")
        (formatPercent (.num 80)) = false ∧
    finalCellText (saveEditStatusTrace 75 "80" true true true "") =
      some (formatPercent (.num 80)) ∧
    shownBeforePutResponse (saveEditedMrfItemTrace "" "part_no" "XYZ" false true "")
        "XYZ" = false ∧
    finalCellText (saveEditedMrfItemTrace "" "part_no" "XYZ" false true "") = some "XYZ" := by
  decide

/-- C2 (amended): inline edits are displayed pessimistically — in `saveEdit`
and in `saveEditedMrfItem` the confirmed value reaches the table cell only
after the PUT request settles (successfully); while the request is in flight
the dashboard cell shows `Saving...` and the MRF cell keeps its editor. -/
theorem inline_edit_displays_only_after_put :
    (∀ (orig nv : ℚ) (newRaw errMsg : String) (putOk updR cacheHit : Bool),
      safeFloat (.str (strTrim newRaw)) none = some nv →
      ¬(nv < 0 ∨ 100 < nv) →
      toFixedTenths nv ≠ toFixedTenths orig →
      shownBeforePutResponse (saveEditStatusTrace orig newRaw putOk updR cacheHit errMsg)
          (formatPercent (.num nv)) = false ∧
        (putOk = true →
          (saveEditStatusTrace orig newRaw putOk updR cacheHit errMsg).get? 3 =
            some (.setCellText (formatPercent (.num nv))))) ∧
    (∀ (cellText field newValue errMsg : String) (putOk : Bool),
      ¬(newValue = cellText ∨ (newValue = "" ∧ cellText = "N/A")) →
      shownBeforePutResponse (saveEditedMrfItemTrace cellText field newValue false putOk errMsg)
          newValue = false ∧
        (putOk = true →
          (saveEditedMrfItemTrace cellText field newValue false putOk errMsg).get? 2 =
            some (.setCellText newValue))) := by
  constructor
  · intro orig nv newRaw errMsg putOk updR cacheHit hp hr hch
    have htr : saveEditStatusTrace orig newRaw putOk updR cacheHit errMsg =
        [.setCellText "Saving...", .putRequest "status" (.num nv), .putResponse putOk] ++
          (if putOk then
            UIEvent.setCellText (formatPercent (.num nv)) ::
              (if updR then
                (if cacheHit then [UIEvent.cacheUpdate]
                 else [UIEvent.refetchActive, UIEvent.refetchCompleted]) ++
                  [UIEvent.updateRemainingCell, UIEvent.refreshDashboard]
              else [UIEvent.refetchActive, UIEvent.refetchCompleted, UIEvent.refreshDashboard])
          else if errMsg = "Unauthorized" then []
          else
            [UIEvent.feedback ("Error updating status: " ++ errMsg) "error",
             UIEvent.setCellText (formatPercent (.num orig))]) := by
      simp only [saveEditStatusTrace, hp, if_neg hr, if_neg hch]
    constructor
    · rw [htr, shownBeforePutResponse]
      show ([UIEvent.setCellText "Saving...", UIEvent.putRequest "status" (.num nv)].contains
        (UIEvent.setCellText (formatPercent (.num nv)))) = false
      simp only [List.contains_cons, List.contains_nil, Bool.or_false, Bool.or_eq_false_iff,
        beq_eq_false_iff_ne, ne_eq, UIEvent.setCellText.injEq]
      exact ⟨formatPercent_num_ne_saving nv, by simp⟩
    · intro hok
      rw [htr, hok]
      rfl
  · intro cellText field newValue errMsg putOk hne
    have htr : saveEditedMrfItemTrace cellText field newValue false putOk errMsg =
        [.putRequest field (.str newValue), .putResponse putOk] ++
          (if putOk then [UIEvent.setCellText newValue]
           else [UIEvent.alertMsg ("Failed to save changes: " ++ errMsg),
                 UIEvent.setCellText cellText]) := by
      simp [saveEditedMrfItemTrace, if_neg hne]
    constructor
    · rw [htr]
      rfl
    · intro hok
      rw [htr, hok]
      rfl

unseal Rat.sub Rat.mul Rat.add Rat.inv in
/-- C2 witness: the pessimistic-display theorem applied to the concrete edit
`75 → 80` with a successful PUT, and to a concrete MRF part-number edit. -/
theorem inline_edit_displays_only_after_put_witness :
    (safeFloat (.str (strTrim "80")) none = some 80 ∧
      ¬((80 : ℚ) < 0 ∨ 100 < (80 : ℚ)) ∧
      toFixedTenths 80 ≠ toFixedTenths 75) ∧
    (shownBeforePutResponse (saveEditStatusTrace 75 "80" true false false "x")
        (formatPercent (.num 80)) = false ∧
      (true = true →
        (saveEditStatusTrace 75 "80" true false false "x").get? 3 =
          some (.setCellText (formatPercent (.num 80))))) ∧
    (shownBeforePutResponse (saveEditedMrfItemTrace "" "part_no" "XYZ" false false "x")
        "XYZ" = false ∧
      (false = true →
        (saveEditedMrfItemTrace "" "part_no" "XYZ" false false "x").get? 2 =
          some (.setCellText "XYZ"))) :=
  ⟨⟨by decide, by decide, by decide⟩,
    inline_edit_displays_only_after_put.1 75 80 "80" "x" true false false (by decide)
      (by decide) (by decide),
    inline_edit_displays_only_after_put.2 "" "part_no" "XYZ" "x" false (by decide)⟩

/-! ## C3 — what a failed save does to the cell -/

unseal Rat.sub Rat.mul Rat.add Rat.inv in
/-- C3 counterexample: for a status cell displaying `75.0%` before the edit,
a failed PUT in `saveEdit` restores the cell text to exactly that pre-edit
display (`cell.textContent = formatPercent(originalValue)`, commented
`Revert on error` in the source) — the claim that no such restoration happens
is false. -/
theorem failed_save_restores_dashboard_cell :
    finalCellText
        (saveEditStatusTrace (makeCellEditableCapture "75.0%").2 "80" false false false
          "network error") =
      some (makeCellEditableCapture "75.0%").1 := by
  decide

/-- C3 (amended): on a failed PUT whose error is not `Unauthorized`,
`saveEdit` goes beyond catch-and-alert — it displays the error feedback and
restores the status cell to the formatted original value; on an
`Unauthorized` failure it does neither, leaving the cell at `Saving...`
(`apiFetch` redirects to the login page); `saveEditedMrfItem` always alerts
and writes back the `textContent` captured at entry, which is the editor
widget's text (empty for input/textarea editors) rather than the pre-edit
display. -/
theorem failed_save_recovery_behaviour :
    (∀ (orig nv : ℚ) (newRaw errMsg : String) (updR cacheHit : Bool),
      safeFloat (.str (strTrim newRaw)) none = some nv →
      ¬(nv < 0 ∨ 100 < nv) →
      toFixedTenths nv ≠ toFixedTenths orig →
      errMsg ≠ "Unauthorized" →
      finalCellText (saveEditStatusTrace orig newRaw false updR cacheHit errMsg) =
        some (formatPercent (.num orig)) ∧
      UIEvent.feedback ("Error updating status: " ++ errMsg) "error" ∈
        saveEditStatusTrace orig newRaw false updR cacheHit errMsg) ∧
    (∀ (orig nv : ℚ) (newRaw : String) (updR cacheHit : Bool),
      safeFloat (.str (strTrim newRaw)) none = some nv →
      ¬(nv < 0 ∨ 100 < nv) →
      toFixedTenths nv ≠ toFixedTenths orig →
      finalCellText (saveEditStatusTrace orig newRaw false updR cacheHit "Unauthorized") =
        some "Saving..." ∧
      ∀ msg kind : String, UIEvent.feedback msg kind ∉
        saveEditStatusTrace orig newRaw false updR cacheHit "Unauthorized") ∧
    (∀ cellText field newValue errMsg : String,
      ¬(newValue = cellText ∨ (newValue = "" ∧ cellText = "N/A")) →
      finalCellText (saveEditedMrfItemTrace cellText field newValue false false errMsg) =
        some cellText ∧
      UIEvent.alertMsg ("Failed to save changes: " ++ errMsg) ∈
        saveEditedMrfItemTrace cellText field newValue false false errMsg) := by
  refine ⟨?_, ?_, ?_⟩
  · intro orig nv newRaw errMsg updR cacheHit hp hr hch herr
    have htr : saveEditStatusTrace orig newRaw false updR cacheHit errMsg =
        [.setCellText "Saving...", .putRequest "status" (.num nv), .putResponse false,
         .feedback ("Error updating status: " ++ errMsg) "error",
         .setCellText (formatPercent (.num orig))] := by
      simp only [saveEditStatusTrace, hp, if_neg hr, if_neg hch, if_neg herr]
      rfl
    rw [htr]
    exact ⟨rfl, by simp⟩
  · intro orig nv newRaw updR cacheHit hp hr hch
    have htr : saveEditStatusTrace orig newRaw false updR cacheHit "Unauthorized" =
        [.setCellText "Saving...", .putRequest "status" (.num nv), .putResponse false] := by
      simp only [saveEditStatusTrace, hp, if_neg hr, if_neg hch, if_pos rfl]
      rfl
    rw [htr]
    refine ⟨rfl, ?_⟩
    intro msg kind hmem
    simp at hmem
  · intro cellText field newValue errMsg hne
    have htr : saveEditedMrfItemTrace cellText field newValue false false errMsg =
        [.putRequest field (.str newValue), .putResponse false,
         .alertMsg ("Failed to save changes: " ++ errMsg), .setCellText cellText] := by
      simp [saveEditedMrfItemTrace, if_neg hne]
    rw [htr]
    exact ⟨rfl, by simp⟩

unseal Rat.sub Rat.mul Rat.add Rat.inv in
/-- C3 witness: the failure-behaviour theorem applied to the concrete failed
edit `75 → 80` with error `boom`, to the same edit failing `Unauthorized`,
and to a concrete failed MRF edit whose cell captured the empty editor
text. -/
theorem failed_save_recovery_witness :
    (safeFloat (.str (strTrim "80")) none = some 80 ∧
      ¬((80 : ℚ) < 0 ∨ 100 < (80 : ℚ)) ∧ toFixedTenths 80 ≠ toFixedTenths 75 ∧
      ("boom" : String) ≠ "Unauthorized") ∧
    (finalCellText (saveEditStatusTrace 75 "80" false true false "boom") =
        some (formatPercent (.num 75)) ∧
      UIEvent.feedback ("Error updating status: " ++ "boom") "error" ∈
        saveEditStatusTrace 75 "80" false true false "boom") ∧
    (finalCellText (saveEditStatusTrace 75 "80" false true false "Unauthorized") =
        some "Saving..." ∧
      ∀ msg kind : String, UIEvent.feedback msg kind ∉
        saveEditStatusTrace 75 "80" false true false "Unauthorized") ∧
    (finalCellText (saveEditedMrfItemTrace "" "uom" "pcs" false false "boom") = some "" ∧
      UIEvent.alertMsg ("Failed to save changes: " ++ "boom") ∈
        saveEditedMrfItemTrace "" "uom" "pcs" false false "boom") :=
  ⟨⟨by decide, by decide, by decide, by decide⟩,
    failed_save_recovery_behaviour.1 75 80 "80" "boom" true false (by decide) (by decide)
      (by decide) (by decide),
    failed_save_recovery_behaviour.2.1 75 80 "80" true false (by decide) (by decide)
      (by decide),
    failed_save_recovery_behaviour.2.2 "" "uom" "pcs" "boom" (by decide)⟩

/-! ## C7 — the front end does keep a client-side store -/

theorem runDashOps_eq (ops : List DashOp) (hnm : ∀ op ∈ ops, isMerge op = false) :
    runDashOps ops = ⟨lastFetchedActive ops, lastFetchedCompleted ops⟩ := by
  rw [runDashOps, lastFetchedActive, lastFetchedCompleted, initDashState]
  suffices h : ∀ st : DashState, (∀ op ∈ ops, isMerge op = false) →
      List.foldl applyDashOp st ops =
        ⟨ops.foldl (fun acc op => match op with | .fetchActive r => r | _ => acc)
            st.currentProjectsData,
          ops.foldl (fun acc op => match op with | .fetchCompleted r => r | _ => acc)
            st.currentCompletedProjectsData⟩ by
    exact h ⟨[], []⟩ hnm
  clear hnm
  induction ops with
  | nil => intro st _; cases st; rfl
  | cons op rest ih =>
    intro st hh
    have hop := hh op (List.mem_cons_self op rest)
    have htail : ∀ o ∈ rest, isMerge o = false :=
      fun o ho => hh o (List.mem_cons_of_mem op ho)
    cases op with
    | fetchActive r => simp only [List.foldl_cons, applyDashOp, ih _ htail]
    | fetchCompleted r => simp only [List.foldl_cons, applyDashOp, ih _ htail]
    | openEdit pid => simp only [List.foldl_cons, applyDashOp, ih _ htail]
    | exportActive => simp only [List.foldl_cons, applyDashOp, ih _ htail]
    | exportCompleted => simp only [List.foldl_cons, applyDashOp, ih _ htail]
    | saveEditMerge pid upd => exact absurd hop (by simp [isMerge])

/-- C7 counterexample: `exportActiveToCSV` exports the retained
`currentProjectsData` copy — its output is whatever the last fetch stored
(empty before any fetch) as subsequently edited in place by `saveEdit`
(after a merge the exported status is the merged `50`, not the fetched
`null`) — and neither it nor `openEditModal`, which finds its project in the
same retained store, performs an API request. -/
theorem export_and_edit_read_retained_copy :
    dashOpUsesApi DashOp.exportActive = false ∧
    exportActiveRows (runDashOps [DashOp.fetchActive [rowWith "id" (.num 1)]]) =
      [rowWith "id" (.num 1)] ∧
    exportActiveRows (runDashOps []) = [] ∧
    openEditLookup (runDashOps [DashOp.fetchActive [rowWith "id" (.num 1)]]) 1 =
      some (rowWith "id" (.num 1)) ∧
    dashOpUsesApi (DashOp.openEdit 1) = false ∧
    (exportActiveRows (runDashOps
        [DashOp.fetchActive [rowWith "id" (.num 1)],
         DashOp.saveEditMerge 1 exStatusUpd])).map (fun r => r "status") =
      [JsVal.num 50] ∧
    (lastFetchedActive
        [DashOp.fetchActive [rowWith "id" (.num 1)],
         DashOp.saveEditMerge 1 exStatusUpd]).map (fun r => r "status") =
      [JsVal.null] :=
  ⟨rfl, rfl, rfl, rfl, rfl, rfl, rfl⟩

/-- C7 (amended): the dashboard retains the fetched project lists in module
state (`currentProjectsData` / `currentCompletedProjectsData`), written only
by the two fetches and by `saveEdit`'s in-place merge of a successful inline
edit; the CSV exports and `openEditModal` obtain their project data from that
retained copy and perform no API call of their own — in any operation run
containing no inline-edit merge, they see exactly the payload of the most
recent corresponding fetch. -/
theorem dashboard_operations_use_retained_store (ops : List DashOp)
    (hnm : ∀ op ∈ ops, isMerge op = false) :
    exportActiveRows (runDashOps ops) = lastFetchedActive ops ∧
    exportCompletedRows (runDashOps ops) = lastFetchedCompleted ops ∧
    (∀ pid : ℚ, openEditLookup (runDashOps ops) pid =
      openEditLookup ⟨lastFetchedActive ops, lastFetchedCompleted ops⟩ pid) ∧
    (∀ (st : DashState) (pid : ℚ), applyDashOp st (.openEdit pid) = st) ∧
    (∀ st : DashState, applyDashOp st .exportActive = st ∧
      applyDashOp st .exportCompleted = st) ∧
    dashOpUsesApi .exportActive = false ∧
    dashOpUsesApi .exportCompleted = false ∧
    (∀ pid : ℚ, dashOpUsesApi (.openEdit pid) = false) := by
  rw [runDashOps_eq ops hnm]
  exact ⟨rfl, rfl, fun pid => rfl, fun st pid => rfl, fun st => ⟨rfl, rfl⟩, rfl, rfl,
    fun pid => rfl⟩

/-- C7 witness: the retained-store theorem applied to a concrete merge-free
fetch-then-export run. -/
theorem dashboard_retained_store_witness :
    (∀ op ∈ [DashOp.fetchActive [rowWith "id" (.num 1)], DashOp.exportActive],
      isMerge op = false) ∧
    (exportActiveRows (runDashOps [DashOp.fetchActive [rowWith "id" (.num 1)],
        DashOp.exportActive]) =
      lastFetchedActive [DashOp.fetchActive [rowWith "id" (.num 1)], DashOp.exportActive] ∧
    exportCompletedRows (runDashOps [DashOp.fetchActive [rowWith "id" (.num 1)],
        DashOp.exportActive]) =
      lastFetchedCompleted [DashOp.fetchActive [rowWith "id" (.num 1)],
        DashOp.exportActive] ∧
    (∀ pid : ℚ, openEditLookup (runDashOps [DashOp.fetchActive [rowWith "id" (.num 1)],
        DashOp.exportActive]) pid =
      openEditLookup
        ⟨lastFetchedActive [DashOp.fetchActive [rowWith "id" (.num 1)],
            DashOp.exportActive],
          lastFetchedCompleted [DashOp.fetchActive [rowWith "id" (.num 1)],
            DashOp.exportActive]⟩ pid) ∧
    (∀ (st : DashState) (pid : ℚ), applyDashOp st (.openEdit pid) = st) ∧
    (∀ st : DashState, applyDashOp st .exportActive = st ∧
      applyDashOp st .exportCompleted = st) ∧
    dashOpUsesApi .exportActive = false ∧
    dashOpUsesApi .exportCompleted = false ∧
    (∀ pid : ℚ, dashOpUsesApi (.openEdit pid) = false)) :=
  ⟨by decide,
    dashboard_operations_use_retained_store
      [DashOp.fetchActive [rowWith "id" (.num 1)], DashOp.exportActive] (by decide)⟩

/-! ## C8 — the single-editor lock -/

theorem editor_step_inv (st : EditorState) (op : EditOp)
    (h : st.editing = st.lock.toList) :
    (applyEditOp st op).1.editing = (applyEditOp st op).1.lock.toList := by
  cases op with
  | make c f =>
    cases hl : st.lock with
    | some d =>
      rw [hl] at h
      by_cases hdc : d ≠ c <;> simp [applyEditOp, hl, hdc, h]
    | none =>
      rw [hl] at h
      by_cases hf : f ≠ "status" <;> simp [applyEditOp, hl, hf, h]
  | save c =>
    by_cases hlc : st.lock = some c
    · rw [hlc] at h
      simp [applyEditOp, hlc, h]
    · simp [applyEditOp, hlc, h]
  | cancel c =>
    by_cases hlc : st.lock = some c
    · rw [hlc] at h
      simp [applyEditOp, hlc, h]
    · simp [applyEditOp, hlc, h]

theorem runEditOps_inv (ops : List EditOp) :
    (runEditOps ops).editing = (runEditOps ops).lock.toList := by
  rw [runEditOps]
  suffices h : ∀ st : EditorState, st.editing = st.lock.toList →
      (List.foldl (fun st op => (applyEditOp st op).1) st ops).editing =
        (List.foldl (fun st op => (applyEditOp st op).1) st ops).lock.toList by
    exact h initEditorState rfl
  induction ops with
  | nil => intro st h; exact h
  | cons op rest ih =>
    intro st h
    exact ih _ (editor_step_inv st op h)

/-- C8: at most one dashboard cell is in inline-edit mode at any time — in
every state reachable by `makeCellEditable` / `saveEdit` / `cancelEdit` the
set of cells holding an editor is exactly the cell named by
`currentlyEditingCell`; while that lock is held, `makeCellEditable` on any
other cell is refused with a warning and changes nothing; and the lock is
released only by `saveEdit` or `cancelEdit`. -/
theorem single_editor_invariant :
    (∀ ops : List EditOp,
      (runEditOps ops).editing = (runEditOps ops).lock.toList ∧
      (runEditOps ops).editing.length ≤ 1) ∧
    (∀ (st : EditorState) (c d : Nat) (f : String), st.lock = some d → d ≠ c →
      applyEditOp st (.make c f) =
        (st, [.feedback "Please save or cancel the other edit first." "warning"])) ∧
    (∀ (st : EditorState) (op : EditOp), (applyEditOp st op).1.lock = none →
      st.lock = none ∨ (∃ c, op = .save c) ∨ (∃ c, op = .cancel c)) := by
  refine ⟨?_, ?_, ?_⟩
  · intro ops
    have h := runEditOps_inv ops
    refine ⟨h, ?_⟩
    rw [h]
    cases (runEditOps ops).lock <;> simp
  · intro st c d f hl hdc
    simp [applyEditOp, hl, hdc]
  · intro st op h
    cases op with
    | make c f =>
      left
      cases hl : st.lock with
      | none => rfl
      | some d =>
        exfalso
        rw [applyEditOp, hl] at h
        by_cases hdc : d ≠ c <;> simp [hdc, hl] at h
    | save c => exact Or.inr (Or.inl ⟨c, rfl⟩)
    | cancel c => exact Or.inr (Or.inr ⟨c, rfl⟩)

/-- C8 witness: the lock-refusal clause applied to a concrete locked state
and the invariant applied to a concrete operation sequence. -/
theorem single_editor_witness :
    ((⟨some 5, [5]⟩ : EditorState).lock = some 5 ∧ (5 : Nat) ≠ 7) ∧
    applyEditOp ⟨some 5, [5]⟩ (.make 7 "status") =
      (⟨some 5, [5]⟩, [.feedback "Please save or cancel the other edit first." "warning"]) ∧
    ((runEditOps [.make 0 "status", .make 1 "status"]).editing =
        (runEditOps [.make 0 "status", .make 1 "status"]).lock.toList ∧
      (runEditOps [.make 0 "status", .make 1 "status"]).editing.length ≤ 1) :=
  ⟨⟨rfl, by decide⟩,
    single_editor_invariant.2.1 ⟨some 5, [5]⟩ 7 5 "status" rfl (by decide),
    single_editor_invariant.1 [.make 0 "status", .make 1 "status"]⟩

/-! ## C9 — the forecast deduction checkbox -/

/-- C9: whenever `handleAddForecastSubmit` sends a forecast, the posted
`forecast_input_value` is 30% of the validated entered value (amount or
percent alike) with `is_deduction = true` when the deduction checkbox is
checked, and the entered value unchanged with `is_deduction = false` when it
is not. -/
theorem forecast_deduction_sends_thirty_percent :
    ∀ (pid : Option Int) (amountRaw percentRaw dateValue : String) (checked : Bool)
      (pl : ForecastPayload),
      handleAddForecastPayload pid amountRaw percentRaw dateValue checked = some pl →
      ∃ v : ℚ,
        ((strTrim amountRaw ≠ "" ∧ safeFloat (.str (strTrim amountRaw)) none = some v ∧
            pl.forecast_input_type = "amount") ∨
          (strTrim amountRaw = "" ∧ strTrim percentRaw ≠ "" ∧
            safeFloat (.str (strTrim percentRaw)) none = some v ∧
            pl.forecast_input_type = "percent")) ∧
        pl.forecast_input_value = (if checked then v * (3 / 10 : ℚ) else v) ∧
        pl.is_deduction = checked := by
  intro pid amountRaw percentRaw dateValue checked pl h
  cases pid with
  | none => simp [handleAddForecastPayload] at h
  | some p =>
    simp only [handleAddForecastPayload] at h
    by_cases h1 : dateValue = ""
    · rw [if_pos h1] at h
      exact absurd h (by simp)
    · rw [if_neg h1] at h
      by_cases h2 : parseDate dateValue = none
      · rw [if_pos h2] at h
        exact absurd h (by simp)
      · rw [if_neg h2] at h
        by_cases h3 : strTrim amountRaw ≠ ""
        · rw [if_pos h3] at h
          by_cases h4 : strTrim percentRaw ≠ ""
          · rw [if_pos h4] at h
            exact absurd h (by simp)
          · rw [if_neg h4] at h
            cases hsf : safeFloat (.str (strTrim amountRaw)) none with
            | none =>
              rw [hsf] at h
              exact absurd h (by simp)
            | some v =>
              rw [hsf] at h
              have hpl := Option.some.inj h
              refine ⟨v, Or.inl ⟨h3, rfl, ?_⟩, ?_, ?_⟩ <;> rw [← hpl]
        · rw [if_neg h3] at h
          by_cases h4 : strTrim percentRaw ≠ ""
          · rw [if_pos h4] at h
            cases hsf : safeFloat (.str (strTrim percentRaw)) none with
            | none =>
              rw [hsf] at h
              exact absurd h (by simp)
            | some v =>
              rw [hsf] at h
              have hpl := Option.some.inj h
              refine ⟨v, Or.inr ⟨not_ne_iff.mp h3, h4, rfl, ?_⟩, ?_, ?_⟩ <;> rw [← hpl]
          · rw [if_neg h4] at h
            exact absurd h (by simp)

unseal Rat.sub Rat.mul Rat.add Rat.inv in
/-- C9 witness: a checked deduction on an entered amount of `100` posts
`forecast_input_value = 30` with `is_deduction = true`. -/
theorem forecast_deduction_witness :
    handleAddForecastPayload (some 7) "100" "" "2024-05-06" true =
      some ⟨7, "amount", 30, "2024-05-06", true⟩ ∧
    (∃ v : ℚ,
      ((strTrim "100" ≠ "" ∧ safeFloat (.str (strTrim "100")) none = some v ∧
          (⟨7, "amount", 30, "2024-05-06", true⟩ : ForecastPayload).forecast_input_type =
            "amount") ∨
        (strTrim "100" = "" ∧ strTrim "" ≠ "" ∧
          safeFloat (.str (strTrim "")) none = some v ∧
          (⟨7, "amount", 30, "2024-05-06", true⟩ : ForecastPayload).forecast_input_type =
            "percent")) ∧
      (⟨7, "amount", 30, "2024-05-06", true⟩ : ForecastPayload).forecast_input_value =
        (if true then v * (3 / 10 : ℚ) else v) ∧
      (⟨7, "amount", 30, "2024-05-06", true⟩ : ForecastPayload).is_deduction = true) :=
  ⟨by decide,
    forecast_deduction_sends_thirty_percent (some 7) "100" "" "2024-05-06" true
      ⟨7, "amount", 30, "2024-05-06", true⟩ (by decide)⟩

/-! ## C10 — `parseDate` / `formatDate` on ISO dates -/

theorem dch_isDigit (k : Nat) : (dch k).isDigit = true := by
  unfold dch
  have h : k % 10 < 10 := Nat.mod_lt _ (by norm_num)
  generalize hg : k % 10 = r
  rw [hg] at h
  interval_cases r <;> decide

theorem dch_not_ws (k : Nat) : isJsWs (dch k) = false := by
  unfold dch
  have h : k % 10 < 10 := Nat.mod_lt _ (by norm_num)
  generalize hg : k % 10 = r
  rw [hg] at h
  interval_cases r <;> decide

theorem dch_ne_slash (k : Nat) : ¬(dch k = '/') := by
  unfold dch
  have h : k % 10 < 10 := Nat.mod_lt _ (by norm_num)
  generalize hg : k % 10 = r
  rw [hg] at h
  interval_cases r <;> decide

theorem digitVal_dch (k : Nat) : digitVal (dch k) = k % 10 := by
  unfold dch digitVal
  have h : k % 10 < 10 := Nat.mod_lt _ (by norm_num)
  generalize hg : k % 10 = r
  rw [hg] at h
  interval_cases r <;> decide

theorem digitsToNat_dch4 (y : Nat) (hy : y ≤ 9999) :
    digitsToNat [dch (y / 1000), dch (y / 100), dch (y / 10), dch y] = y := by
  simp only [digitsToNat, List.foldl, digitVal_dch]
  omega

theorem digitsToNat_dch2 (m : Nat) (hm : m ≤ 99) :
    digitsToNat [dch (m / 10), dch m] = m := by
  simp only [digitsToNat, List.foldl, digitVal_dch]
  omega

theorem dropWhile_eq_self_of_all {p : Char → Bool} :
    ∀ cs : List Char, (∀ c ∈ cs, p c = false) → cs.dropWhile p = cs
  | [], _ => rfl
  | a :: l, h => by
    rw [List.dropWhile_cons, h a (List.mem_cons_self a l)]
    rfl

theorem listTrim_eq_self (cs : List Char) (h : ∀ c ∈ cs, isJsWs c = false) :
    listTrim cs = cs := by
  unfold listTrim
  rw [dropWhile_eq_self_of_all cs h,
    dropWhile_eq_self_of_all cs.reverse (fun c hc => h c (List.mem_reverse.mp hc)),
    List.reverse_reverse]

theorem isoChars_not_ws (y m d : Nat) : ∀ c ∈ isoChars y m d, isJsWs c = false := by
  intro c hc
  simp only [isoChars, List.mem_cons, List.not_mem_nil, or_false] at hc
  rcases hc with rfl | rfl | rfl | rfl | rfl | rfl | rfl | rfl | rfl | rfl <;>
    first
      | exact dch_not_ws _
      | decide

theorem isoChars_ne_empty (y m d : Nat) : (⟨isoChars y m d⟩ : String) ≠ "" := by
  intro h
  have hd := congrArg String.data h
  simp [isoChars] at hd

theorem matchIso_isoChars (y m d : Nat) (hy : y ≤ 9999) (hm : m ≤ 99) (hd : d ≤ 99) :
    matchIso (isoChars y m d) = some (y, m, d) := by
  simp only [isoChars, matchIso]
  rw [if_pos (by simp [dch_isDigit])]
  rw [digitsToNat_dch4 y hy, digitsToNat_dch2 m hm, digitsToNat_dch2 d hd]

theorem matchSlashDate_isoChars (y m d : Nat) : matchSlashDate (isoChars y m d) = none := by
  have h1 : matchNum12Slash (isoChars y m d) = none := by
    simp only [isoChars, matchNum12Slash]
    rw [if_pos (by simp [dch_isDigit])]
    rw [if_neg (dch_ne_slash _)]
  simp [matchSlashDate, h1]

theorem daysInMonth_le_31 (y : Int) (m : Nat) : daysInMonth y m ≤ 31 := by
  unfold daysInMonth
  split_ifs <;> omega

theorem checkedUTC_valid (y : Int) (m d : Nat) (hy : 100 ≤ y) (hm1 : 1 ≤ m) (hm2 : m ≤ 12)
    (hd1 : 1 ≤ d) (hdim : d ≤ daysInMonth y m) :
    checkedUTC y m d = some ⟨y, m, d⟩ := by
  have hd31 : d ≤ 31 := le_trans hdim (daysInMonth_le_31 y m)
  simp only [checkedUTC, dateUTCNorm, utcYearAdjust]
  rw [if_pos ⟨hm1, hm2, hd1, hd31⟩]
  simp only [if_neg (show ¬(0 ≤ y ∧ y ≤ 99) from by omega)]
  rw [if_pos hdim, if_pos rfl]

theorem checkedUTC_overflow (y : Int) (m d : Nat) (hy : 100 ≤ y) (hm1 : 1 ≤ m) (hm2 : m ≤ 12)
    (hdim : daysInMonth y m < d) (hd31 : d ≤ 31) :
    checkedUTC y m d = none := by
  simp only [checkedUTC, dateUTCNorm, utcYearAdjust]
  rw [if_pos ⟨hm1, hm2, by omega, hd31⟩]
  simp only [if_neg (show ¬(0 ≤ y ∧ y ≤ 99) from by omega)]
  rw [if_neg (show ¬(d ≤ daysInMonth y m) from by omega)]
  by_cases hm12 : m = 12
  · rw [if_pos hm12,
      if_neg (fun heq => absurd (congrArg UTCDate.month heq) (by simp [hm12]))]
  · rw [if_neg hm12,
      if_neg (fun heq => absurd (congrArg UTCDate.month heq) (show ¬(m + 1 = m) by omega))]

theorem checkedUTC_bad_range (y : Int) (m d : Nat)
    (hbad : ¬(1 ≤ m ∧ m ≤ 12 ∧ 1 ≤ d ∧ d ≤ 31)) :
    checkedUTC y m d = none := by
  unfold checkedUTC
  rw [if_neg hbad]

theorem jsDateHeuristic_isoChars (y m d : Nat) (hy : y ≤ 9999) (hm : m ≤ 99)
    (hd : d ≤ 99) :
    jsDateHeuristic (isoChars y m d) =
      if 1 ≤ m ∧ m ≤ 12 ∧ 1 ≤ d ∧ d ≤ daysInMonth (Int.ofNat y) m then
        some (dateUTCNorm (Int.ofNat y) m d)
      else none := by
  simp only [isoChars, jsDateHeuristic]
  rw [if_pos (by simp [dch_isDigit])]
  simp only [digitsToNat_dch4 y hy, digitsToNat_dch2 m hm, digitsToNat_dch2 d hd]

theorem parseDate_isoChars (y m d : Nat) (hy : y ≤ 9999) (hm : m ≤ 99) (hd : d ≤ 99) :
    parseDate ⟨isoChars y m d⟩ =
      match checkedUTC (Int.ofNat y) m d with
      | some dt => some dt
      | none => jsDateHeuristic (isoChars y m d) := by
  rw [parseDate, if_neg (isoChars_ne_empty y m d)]
  have htrim : strTrim ⟨isoChars y m d⟩ = ⟨isoChars y m d⟩ := by
    show (⟨listTrim (isoChars y m d)⟩ : String) = _
    rw [listTrim_eq_self _ (isoChars_not_ws y m d)]
  rw [htrim, if_neg (isoChars_ne_empty y m d)]
  show parseDateChars (isoChars y m d) = _
  simp only [parseDateChars, matchIso_isoChars y m d hy hm hd]
  cases hc : checkedUTC (Int.ofNat y) m d with
  | some dt => rfl
  | none => simp only [matchSlashDate_isoChars]

/-- C10 (amended): for `YYYY-MM-DD` strings with year component 100–9999,
`parseDate` returns exactly the denoted UTC components when the date is a real
calendar date, rejects non-existent dates such as February 30 to `null` (the
round-trip check fails and the `Date`-constructor fallback yields an Invalid
Date, so nothing rolls over), and rejects out-of-range month/day components;
`formatDate` then renders zero-padded `MM/DD/` followed by the unpadded year,
and returns the fallback on empty or rejected input.  (Years 0–99 are
excluded: `Date.UTC` maps them to 1900–1999, so the ISO branch's round-trip
check fails and the `Date`-constructor fallback returns the 1900-shifted
date, not the denoted components — see the counterexample.) -/
theorem parseDate_formatDate_iso :
    (∀ y m d : Nat, 100 ≤ y → y ≤ 9999 → 1 ≤ m → m ≤ 12 → 1 ≤ d →
      d ≤ daysInMonth (Int.ofNat y) m →
      parseDate ⟨isoChars y m d⟩ = some ⟨Int.ofNat y, m, d⟩ ∧
      formatDate ⟨isoChars y m d⟩ "N/A" =
        padZero 2 (toString m) ++ "/" ++ padZero 2 (toString d) ++ "/" ++
          toString (Int.ofNat y)) ∧
    (∀ y m d : Nat, 100 ≤ y → y ≤ 9999 → 1 ≤ m → m ≤ 12 →
      daysInMonth (Int.ofNat y) m < d → d ≤ 31 →
      parseDate ⟨isoChars y m d⟩ = none ∧ formatDate ⟨isoChars y m d⟩ "N/A" = "N/A") ∧
    (∀ y m d : Nat, y ≤ 9999 → m ≤ 99 → d ≤ 99 →
      ¬(1 ≤ m ∧ m ≤ 12 ∧ 1 ≤ d ∧ d ≤ 31) →
      parseDate ⟨isoChars y m d⟩ = none) ∧
    parseDate "" = none ∧ formatDate "" "N/A" = "N/A" := by
  refine ⟨?_, ?_, ?_, rfl, rfl⟩
  · intro y m d hy1 hy2 hm1 hm2 hd1 hdim
    have hd99 : d ≤ 99 := by
      have h31 := daysInMonth_le_31 (Int.ofNat y) m; omega
    have hp : parseDate ⟨isoChars y m d⟩ = some ⟨Int.ofNat y, m, d⟩ := by
      rw [parseDate_isoChars y m d hy2 (by omega) hd99,
        checkedUTC_valid (Int.ofNat y) m d (Int.ofNat_le.mpr hy1) hm1 hm2 hd1 hdim]
    refine ⟨hp, ?_⟩
    rw [formatDate, if_neg (isoChars_ne_empty y m d), hp]
  · intro y m d hy1 hy2 hm1 hm2 hdim hd31
    have hp : parseDate ⟨isoChars y m d⟩ = none := by
      rw [parseDate_isoChars y m d hy2 (by omega) (by omega),
        checkedUTC_overflow (Int.ofNat y) m d (Int.ofNat_le.mpr hy1) hm1 hm2 hdim hd31]
      show jsDateHeuristic (isoChars y m d) = none
      rw [jsDateHeuristic_isoChars y m d hy2 (by omega) (by omega),
        if_neg (show ¬(1 ≤ m ∧ m ≤ 12 ∧ 1 ≤ d ∧ d ≤ daysInMonth (Int.ofNat y) m)
          from by omega)]
    refine ⟨hp, ?_⟩
    rw [formatDate, if_neg (isoChars_ne_empty y m d), hp]
  · intro y m d hy hm hd hbad
    rw [parseDate_isoChars y m d hy hm hd, checkedUTC_bad_range (Int.ofNat y) m d hbad]
    show jsDateHeuristic (isoChars y m d) = none
    have h31 := daysInMonth_le_31 (Int.ofNat y) m
    rw [jsDateHeuristic_isoChars y m d hy hm hd,
      if_neg (show ¬(1 ≤ m ∧ m ≤ 12 ∧ 1 ≤ d ∧ d ≤ daysInMonth (Int.ofNat y) m) from by
        intro hcon
        exact hbad ⟨hcon.1, hcon.2.1, hcon.2.2.1, by omega⟩)]

/-- C10 counterexample: `"0012-05-06"` denotes the real (proleptic) calendar
date 12-05-06, but `parseDate` does not return a date with year 12: the
`Date.UTC` legacy rule turns year 12 into 1912 in the ISO branch, whose
round-trip check therefore fails, and the `Date`-constructor fallback (the
string is a conforming ES Date Time String) rebuilds the date through
`Date.UTC` again, so the result is 1912-05-06 — not `null` and not year 12 —
and `formatDate` renders `05/06/1912` rather than the fallback. -/
theorem parseDate_small_year_not_returned :
    parseDate ⟨isoChars 12 5 6⟩ = some ⟨1912, 5, 6⟩ ∧
    (parseDate ⟨isoChars 12 5 6⟩).map UTCDate.year ≠ some 12 ∧
    formatDate ⟨isoChars 12 5 6⟩ "N/A" = "05/06/1912" := by
  refine ⟨by decide, by decide, ?_⟩
  have hp : parseDate ⟨isoChars 12 5 6⟩ = some ⟨1912, 5, 6⟩ := by decide
  rw [formatDate, if_neg (isoChars_ne_empty 12 5 6), hp]
  rfl

/-- C10 witness: the ISO round-trip theorem applied at 2023-04-05 (valid) and
at 2023-02-30 (rejected). -/
theorem parseDate_formatDate_witness :
    parseDate ⟨isoChars 2023 4 5⟩ = some ⟨Int.ofNat 2023, 4, 5⟩ ∧
    formatDate ⟨isoChars 2023 4 5⟩ "N/A" =
      padZero 2 (toString (4 : Nat)) ++ "/" ++ padZero 2 (toString (5 : Nat)) ++ "/" ++
        toString (Int.ofNat 2023) ∧
    parseDate ⟨isoChars 2023 2 30⟩ = none :=
  ⟨(parseDate_formatDate_iso.1 2023 4 5 (by decide) (by decide) (by decide) (by decide)
      (by decide) (by decide)).1,
    (parseDate_formatDate_iso.1 2023 4 5 (by decide) (by decide) (by decide) (by decide)
      (by decide) (by decide)).2,
    (parseDate_formatDate_iso.2.1 2023 2 30 (by decide) (by decide) (by decide) (by decide)
      (by decide) (by decide)).1⟩

end DSApp